import Mathlib

/-!
# Top10PonyVotingProcessing — shallow embedding and verification

This file embeds the core pure logic of the Top10PonyVotingProcessing
repository in Lean 4 and proves properties of the ranking engine
(`functions/top_10_calc.py`), the date/duration utilities
(`functions/date.py`) and the yt-dlp fetch-service post-processing
(`classes/fetch_services.py`).

Conventions of the embedding:
* Python strings are `List Char` where character-level parsing matters,
  and `String` where only equality is used (dictionary keys).
* Python `dict` is an insertion-ordered association list
  (`List (key × value)`); inserting an existing key updates it in place,
  inserting a new key appends, as CPython dicts do.
* Fallible Python code (functions that can raise `ValueError` /
  `KeyError`) is embedded in `Except String`; the error string mirrors
  the exception message.
* Python floats are modelled as exact rationals (`ℚ`); the `:.4f` format
  is modelled as decimal rendering of the rational rounded half-to-even
  to 4 places.
* Diagnostic output (`functions/messages.err` / `inf`) is modelled as an
  explicitly returned list of message strings.
-/

/-! ## Python dictionaries as insertion-ordered association lists -/

/-- `d[k] = v` on a Python dict: update the binding in place if the key is
present, otherwise append a new binding at the end. -/
def dictInsert {α β : Type} [DecidableEq α] (k : α) (v : β)
    (d : List (α × β)) : List (α × β) :=
  if (d.map Prod.fst).contains k then
    d.map (fun p => if p.1 = k then (k, v) else p)
  else
    d ++ [(k, v)]

/-- `d.get(k)` / `d[k]` lookup on a Python dict (the first — and only —
binding of the key). -/
def dictGet? {α β : Type} [DecidableEq α] (k : α)
    (d : List (α × β)) : Option β :=
  (d.find? (fun p => p.1 = k)).map Prod.snd

/-- `k in d` on a Python dict. -/
def dictMem {α β : Type} [DecidableEq α] (k : α) (d : List (α × β)) : Bool :=
  (d.map Prod.fst).contains k

/-! ## Python string primitives used by `functions/date.py` -/

/-- Python `str.split(sep)` for a single-character separator: the list of
(possibly empty) chunks between occurrences of `sep`. -/
def pySplitChar (sep : Char) : List Char → List (List Char)
  | [] => [[]]
  | c :: cs =>
    if c = sep then [] :: pySplitChar sep cs
    else
      match pySplitChar sep cs with
      | [] => [[c]]
      | g :: gs => (c :: g) :: gs

/-- Numeric value of a list of decimal digit characters (most significant
first). -/
def digitsVal (cs : List Char) : Nat :=
  cs.foldl (fun a c => 10 * a + (c.toNat - 48)) 0

/-- Python `int(s)` restricted to plain (unsigned, undecorated) decimal
strings, which is the only form the parsed inputs contain: `none` models
the `ValueError` raised on anything else. -/
def pyInt? (cs : List Char) : Option Nat :=
  if cs ≠ [] ∧ cs.all Char.isDigit then some (digitsVal cs) else none

/-! ## `convert_iso8601_duration_to_seconds` (functions/date.py) -/

/-- One `if "X" in s: part, s = s.split("X"); n = int(part)` step of the
duration parser: `none` models the `ValueError` raised either by the
2-tuple destructuring (when the separator occurs more than once) or by
`int`. When the separator is absent the component is 0 and the string is
left untouched. -/
def componentStep (sep : Char) (s : List Char) : Option (Nat × List Char) :=
  if sep ∈ s then
    match pySplitChar sep s with
    | [a, b] => (pyInt? a).map (fun n => (n, b))
    | _ => none
  else some (0, s)

/-- The `if "S" in s: seconds = int(s.replace("S", ""))` step: every `S`
is removed and the remainder parsed. -/
def secondsStep (s : List Char) : Option Nat :=
  if 'S' ∈ s then pyInt? (s.filter (fun c => c ≠ 'S')) else some 0

/-- `convert_iso8601_duration_to_seconds` from `functions/date.py`:
strip a leading `PT`, then read optional hour, minute and second
components in that order and combine them as
`hours * 3600 + minutes * 60 + seconds`. -/
def convert_iso8601_duration_to_seconds (s0 : List Char) : Option Nat :=
  let s1 := if s0.take 2 = ['P', 'T'] then s0.drop 2 else s0
  (componentStep 'H' s1).bind fun hrs =>
    (componentStep 'M' hrs.2).bind fun mins =>
      (secondsStep mins.2).map fun seconds =>
        hrs.1 * 3600 + mins.1 * 60 + seconds

/-- The duration string `PT[dh H][dm M][ds S]` with each component
present or absent according to its flag. -/
def iso8601DurationString (bh : Bool) (dh : List Char) (bm : Bool)
    (dm : List Char) (bs : Bool) (ds : List Char) : List Char :=
  ['P', 'T'] ++ (if bh then dh ++ ['H'] else [])
    ++ (if bm then dm ++ ['M'] else [])
    ++ (if bs then ds ++ ['S'] else [])

/-! Splitting lemmas for the duration parser. -/

theorem pySplitChar_not_mem {sep : Char} {a : List Char} (h : sep ∉ a) :
    pySplitChar sep a = [a] := by
  induction a with
  | nil => rfl
  | cons c cs ih =>
    have hc : c ≠ sep := fun hcs => h (hcs ▸ List.mem_cons_self c cs)
    have hcs : sep ∉ cs := fun hm => h (List.mem_cons_of_mem _ hm)
    simp [pySplitChar, hc, ih hcs]

theorem pySplitChar_append {sep : Char} {a b : List Char} (h : sep ∉ a) :
    pySplitChar sep (a ++ sep :: b) = a :: pySplitChar sep b := by
  induction a with
  | nil => simp [pySplitChar]
  | cons c cs ih =>
    have hc : c ≠ sep := fun hcs => h (hcs ▸ List.mem_cons_self c cs)
    have hcs : sep ∉ cs := fun hm => h (List.mem_cons_of_mem _ hm)
    simp [pySplitChar, hc, List.append_eq, ih hcs]

theorem componentStep_found {sep : Char} {a b : List Char} {n : Nat}
    (ha : sep ∉ a) (hb : sep ∉ b) (hn : pyInt? a = some n) :
    componentStep sep (a ++ sep :: b) = some (n, b) := by
  have hmem : sep ∈ a ++ sep :: b := List.mem_append_right _ (List.mem_cons_self _ _)
  simp only [componentStep, if_pos hmem, pySplitChar_append ha,
    pySplitChar_not_mem hb, hn, Option.map_some']

theorem componentStep_absent {sep : Char} {s : List Char} (h : sep ∉ s) :
    componentStep sep s = some (0, s) := by
  simp [componentStep, h]

theorem secondsStep_found {a : List Char} {n : Nat}
    (ha : 'S' ∉ a) (hn : pyInt? a = some n) :
    secondsStep (a ++ ['S']) = some n := by
  have hmem : 'S' ∈ a ++ ['S'] := List.mem_append_right _ (List.mem_cons_self _ _)
  have hfilter : (a ++ ['S']).filter (fun c => c ≠ 'S') = a := by
    rw [List.filter_append]
    have h1 : a.filter (fun c => c ≠ 'S') = a :=
      List.filter_eq_self.2 (fun c hc => by
        simp only [ne_eq, decide_eq_true_eq]
        exact fun hcs => ha (hcs ▸ hc))
    have h2 : (['S'] : List Char).filter (fun c => c ≠ 'S') = [] := by decide
    rw [h1, h2, List.append_nil]
  simp only [secondsStep, if_pos hmem, hfilter, hn]

theorem secondsStep_absent {s : List Char} (h : 'S' ∉ s) :
    secondsStep s = some 0 := by
  simp [secondsStep, h]

/-- A decimal digit character is not one of the duration letters. -/
theorem digit_ne_duration_letter {c : Char} (h : c.isDigit = true) :
    c ≠ 'H' ∧ c ≠ 'M' ∧ c ≠ 'S' := by
  refine ⟨?_, ?_, ?_⟩ <;> rintro rfl <;> exact absurd h (by decide)

theorem letter_not_mem_digits {c : Char} {a : List Char}
    (ha : a.all Char.isDigit = true) (hc : c.isDigit = false) : c ∉ a := by
  intro hm
  have := List.all_eq_true.1 ha _ hm
  rw [hc] at this
  exact Bool.false_ne_true this

theorem not_mem_optional {c sep : Char} {b : Bool} {d : List Char}
    (hd : b = true → d.all Char.isDigit = true) (hcd : c.isDigit = false)
    (hcs : c ≠ sep) : c ∉ (if b then d ++ [sep] else []) := by
  cases b with
  | false => simp
  | true =>
    rw [if_pos rfl]
    intro hm
    rcases List.mem_append.1 hm with h | h
    · exact letter_not_mem_digits (hd rfl) hcd h
    · rcases List.mem_singleton.1 h with rfl
      exact hcs rfl

/-- An optional `H`/`M` duration component followed by a tail that does not
contain the separator is consumed exactly as its numeric value. -/
theorem componentStep_opt (sep : Char) (b : Bool) (d tail : List Char)
    (hd : b = true → d ≠ [] ∧ d.all Char.isDigit = true)
    (hsep : sep.isDigit = false) (htail : sep ∉ tail) :
    componentStep sep ((if b then d ++ [sep] else []) ++ tail)
      = some ((if b then digitsVal d else 0), tail) := by
  cases b with
  | false => simpa using componentStep_absent htail
  | true =>
    obtain ⟨hne, hdig⟩ := hd rfl
    have hni : sep ∉ d := letter_not_mem_digits hdig hsep
    have hshape : (d ++ [sep]) ++ tail = d ++ sep :: tail := by simp
    have hpi : pyInt? d = some (digitsVal d) := by simp [pyInt?, hne, hdig]
    rw [if_pos rfl, if_pos rfl, hshape, componentStep_found hni htail hpi]

/-- An optional trailing `S` component evaluates to its numeric value. -/
theorem secondsStep_opt (b : Bool) (d : List Char)
    (hd : b = true → d ≠ [] ∧ d.all Char.isDigit = true) :
    secondsStep (if b then d ++ ['S'] else [])
      = some (if b then digitsVal d else 0) := by
  cases b with
  | false => simpa using secondsStep_absent (by simp)
  | true =>
    obtain ⟨hne, hdig⟩ := hd rfl
    have hni : 'S' ∉ d := letter_not_mem_digits hdig (by decide)
    have hpi : pyInt? d = some (digitsVal d) := by simp [pyInt?, hne, hdig]
    rw [if_pos rfl, if_pos rfl, secondsStep_found hni hpi]

theorem convert_eq_steps (rest : List Char) :
    convert_iso8601_duration_to_seconds ('P' :: 'T' :: rest) =
      (componentStep 'H' rest).bind fun hrs =>
        (componentStep 'M' hrs.2).bind fun mins =>
          (secondsStep mins.2).map fun seconds =>
            hrs.1 * 3600 + mins.1 * 60 + seconds := by
  have h : ('P' :: 'T' :: rest).take 2 = ['P', 'T'] := rfl
  simp [convert_iso8601_duration_to_seconds, h]

/-- **C4.** For every ISO-8601 duration string consisting of the `PT` marker
followed by any ordered subset of hour, minute and second components (each a
nonempty run of decimal digits followed by its letter, H before M before S),
`convert_iso8601_duration_to_seconds` returns
`hours * 3600 + minutes * 60 + seconds`, absent components contributing 0. -/
theorem convert_iso8601_duration_correct (bh bm bs : Bool) (dh dm ds : List Char)
    (hh : bh = true → dh ≠ [] ∧ dh.all Char.isDigit = true)
    (hm : bm = true → dm ≠ [] ∧ dm.all Char.isDigit = true)
    (hs : bs = true → ds ≠ [] ∧ ds.all Char.isDigit = true) :
    convert_iso8601_duration_to_seconds (iso8601DurationString bh dh bm dm bs ds)
      = some ((if bh then digitsVal dh else 0) * 3600
          + (if bm then digitsVal dm else 0) * 60
          + (if bs then digitsVal ds else 0)) := by
  have hHM : 'H' ∉ (if bm then dm ++ ['M'] else []) :=
    not_mem_optional (fun h => (hm h).2) (by decide) (by decide)
  have hHS : 'H' ∉ (if bs then ds ++ ['S'] else []) :=
    not_mem_optional (fun h => (hs h).2) (by decide) (by decide)
  have hMS : 'M' ∉ (if bs then ds ++ ['S'] else []) :=
    not_mem_optional (fun h => (hs h).2) (by decide) (by decide)
  have hHtail : 'H' ∉ (if bm then dm ++ ['M'] else []) ++ (if bs then ds ++ ['S'] else []) := by
    intro hmem
    rcases List.mem_append.1 hmem with h | h
    · exact hHM h
    · exact hHS h
  have h1 := componentStep_opt 'H' bh dh
    ((if bm then dm ++ ['M'] else []) ++ (if bs then ds ++ ['S'] else []))
    hh (by decide) hHtail
  have h2 := componentStep_opt 'M' bm dm (if bs then ds ++ ['S'] else [])
    hm (by decide) hMS
  have h3 := secondsStep_opt bs ds hs
  have hshape : iso8601DurationString bh dh bm dm bs ds
      = 'P' :: 'T' :: ((if bh then dh ++ ['H'] else [])
          ++ ((if bm then dm ++ ['M'] else []) ++ (if bs then ds ++ ['S'] else []))) := by
    simp [iso8601DurationString]
  rw [hshape, convert_eq_steps, h1, Option.some_bind, h2, Option.some_bind, h3,
    Option.map_some']

/-- Witness for C4: the spec examples. `PT1H2M3S` → 3723, `PT45S` → 45,
`PT10M` → 600, `PT0S` → 0. -/
theorem convert_iso8601_duration_correct_witness :
    convert_iso8601_duration_to_seconds
        (iso8601DurationString true ['1'] true ['2'] true ['3']) = some 3723
    ∧ convert_iso8601_duration_to_seconds
        (iso8601DurationString false [] false [] true ['4', '5']) = some 45
    ∧ convert_iso8601_duration_to_seconds
        (iso8601DurationString false [] true ['1', '0'] false []) = some 600
    ∧ convert_iso8601_duration_to_seconds
        (iso8601DurationString false [] false [] true ['0']) = some 0 :=
  ⟨(convert_iso8601_duration_correct true true true ['1'] ['2'] ['3']
      (by decide) (by decide) (by decide)).trans (by decide),
   (convert_iso8601_duration_correct false false true [] [] ['4', '5']
      (by decide) (by decide) (by decide)).trans (by decide),
   (convert_iso8601_duration_correct false true false [] ['1', '0'] []
      (by decide) (by decide) (by decide)).trans (by decide),
   (convert_iso8601_duration_correct false false true [] [] ['0']
      (by decide) (by decide) (by decide)).trans (by decide)⟩

/-! ## Python datetimes (functions/date.py) -/

/-- A Python `datetime` as used by `functions/date.py`: wall-clock fields
plus an optional fixed-offset timezone, recorded as minutes east of UTC
(the pytz zones used are fixed-offset: `Etc/GMT-14` is +840 minutes,
`Etc/GMT+12` is −720 minutes). -/
structure PyDatetime where
  year : ℕ
  month : ℕ
  day : ℕ
  hour : ℕ
  minute : ℕ
  second : ℕ
  tzOffsetMinutes : Option ℤ
deriving DecidableEq, Repr

def isLeapYear (y : ℕ) : Bool :=
  y % 4 = 0 && (y % 100 ≠ 0 || y % 400 = 0)

def daysInMonth (year month : ℕ) : ℕ :=
  if month = 2 then (if isLeapYear year then 29 else 28)
  else if month = 4 ∨ month = 6 ∨ month = 9 ∨ month = 11 then 30
  else 31

theorem one_le_daysInMonth (year month : ℕ) : 1 ≤ daysInMonth year month := by
  unfold daysInMonth
  split_ifs <;> omega

/-- The `datetime(year, month, day, hour, minute, second, tzinfo)`
constructor; `none` models the `ValueError` on any out-of-range field
(`MINYEAR = 1`, `MAXYEAR = 9999`). -/
def mkDatetime (year month day hour minute second : ℕ) (tz : Option ℤ) :
    Option PyDatetime :=
  if 1 ≤ year ∧ year ≤ 9999 ∧ 1 ≤ month ∧ month ≤ 12
      ∧ 1 ≤ day ∧ day ≤ daysInMonth year month
      ∧ hour ≤ 23 ∧ minute ≤ 59 ∧ second ≤ 59 then
    some ⟨year, month, day, hour, minute, second, tz⟩
  else none

/-- `get_month_year_bounds` from `functions/date.py`. The pytz
fixed-offset zones are modelled by their UTC offsets in minutes
(`Etc/GMT-14` = +840, `Etc/GMT+12` = −720); `datetime(...)` and
`.replace(...)` range errors become `Except.error`. -/
def get_month_year_bounds (month year : ℕ) (lenient : Bool) :
    Except String (PyDatetime × PyDatetime) :=
  match mkDatetime year month 1 0 0 0 (if lenient then some 840 else none) with
  | none => .error "ValueError: argument out of range"
  | some lower_bound =>
    match
      if month < 12 then
        mkDatetime lower_bound.year (lower_bound.month + 1) lower_bound.day
          lower_bound.hour lower_bound.minute lower_bound.second
          (if lenient then some (-720) else none)
      else
        mkDatetime (lower_bound.year + 1) 1 lower_bound.day
          lower_bound.hour lower_bound.minute lower_bound.second
          (if lenient then some (-720) else none)
    with
    | none => .error "ValueError: argument out of range"
    | some upper_bound => .ok (lower_bound, upper_bound)

/-- **C6.** For every representable (month, year) pair, the month bounds
are the first instant of the month and the first instant of the following
month (year rolling over at December), timezone-naive in strict mode; in
lenient mode the same wall-clock instants carry UTC+14 (lower) and UTC−12
(upper). -/
theorem get_month_year_bounds_correct (month year : ℕ) (lenient : Bool)
    (hm1 : 1 ≤ month) (hm2 : month ≤ 12) (hy1 : 1 ≤ year) (hy2 : year ≤ 9998) :
    get_month_year_bounds month year lenient =
      .ok (⟨year, month, 1, 0, 0, 0, if lenient then some 840 else none⟩,
        ⟨if month < 12 then year else year + 1,
         if month < 12 then month + 1 else 1, 1, 0, 0, 0,
         if lenient then some (-720) else none⟩) := by
  have hd1 := one_le_daysInMonth year month
  have hcond1 : 1 ≤ year ∧ year ≤ 9999 ∧ 1 ≤ month ∧ month ≤ 12 ∧ 1 ≤ 1 ∧
      1 ≤ daysInMonth year month ∧ 0 ≤ 23 ∧ 0 ≤ 59 ∧ 0 ≤ 59 :=
    ⟨hy1, by omega, hm1, hm2, le_refl 1, hd1, by omega, by omega, by omega⟩
  have hmk1 : mkDatetime year month 1 0 0 0 (if lenient then some 840 else none) =
      some ⟨year, month, 1, 0, 0, 0, if lenient then some 840 else none⟩ := by
    unfold mkDatetime
    exact if_pos hcond1
  by_cases h12 : month < 12
  · have hmk2 : mkDatetime year (month + 1) 1 0 0 0
        (if lenient then some (-720) else none) =
        some ⟨year, month + 1, 1, 0, 0, 0, if lenient then some (-720) else none⟩ := by
      unfold mkDatetime
      exact if_pos ⟨hy1, by omega, by omega, by omega, le_refl 1,
        one_le_daysInMonth year (month + 1), by omega, by omega, by omega⟩
    simp only [get_month_year_bounds, hmk1, h12, if_true, hmk2]
  · have hmk2 : mkDatetime (year + 1) 1 1 0 0 0
        (if lenient then some (-720) else none) =
        some ⟨year + 1, 1, 1, 0, 0, 0, if lenient then some (-720) else none⟩ := by
      unfold mkDatetime
      exact if_pos ⟨by omega, by omega, le_refl 1, by omega, le_refl 1,
        one_le_daysInMonth (year + 1) 1, by omega, by omega, by omega⟩
    simp only [get_month_year_bounds, hmk1, h12, if_false, hmk2]

/-- Witness for C6: the spec example, (month 3, year 2024), in both modes. -/
theorem get_month_year_bounds_correct_witness :
    get_month_year_bounds 3 2024 false =
      .ok (⟨2024, 3, 1, 0, 0, 0, none⟩, ⟨2024, 4, 1, 0, 0, 0, none⟩)
    ∧ get_month_year_bounds 3 2024 true =
      .ok (⟨2024, 3, 1, 0, 0, 0, some 840⟩, ⟨2024, 4, 1, 0, 0, 0, some (-720)⟩) :=
  ⟨(get_month_year_bounds_correct 3 2024 false (by decide) (by decide) (by decide)
      (by decide)).trans rfl,
   (get_month_year_bounds_correct 3 2024 true (by decide) (by decide) (by decide)
      (by decide)).trans rfl⟩

/-! ## `parse_votes_csv_timestamp` (functions/date.py) -/

/-- Python `str.strip()`: remove leading and trailing whitespace. -/
def pyStrip (cs : List Char) : List Char :=
  ((cs.dropWhile Char.isWhitespace).reverse.dropWhile Char.isWhitespace).reverse

/-- Python `str.zfill(w)`: left-pad with `0` to width `w`. -/
def pyZfill (w : ℕ) (cs : List Char) : List Char :=
  List.replicate (w - cs.length) '0' ++ cs

/-- The six captured digit groups of the votes-CSV timestamp regex
`^(\d+)/(\d+)/(\d+) (\d+):(\d+):(\d+)$`. -/
structure TsFields where
  monthF : List Char
  dayF : List Char
  yearF : List Char
  hourF : List Char
  minuteF : List Char
  secondF : List Char
deriving DecidableEq, Repr

/-- Consume a maximal nonempty run of digits followed by the given
separator character (a greedy `(\d+)sep` regex fragment). -/
def digitsThen (sep : Char) (cs : List Char) : Option (List Char × List Char) :=
  if cs.takeWhile Char.isDigit = [] then none
  else if (cs.dropWhile Char.isDigit).head? = some sep then
    some (cs.takeWhile Char.isDigit, (cs.dropWhile Char.isDigit).tail)
  else none

/-- Consume a final nonempty all-digit run (`(\d+)$`). -/
def digitsEnd (cs : List Char) : Option (List Char) :=
  if cs.takeWhile Char.isDigit = [] then none
  else if cs.dropWhile Char.isDigit = [] then some (cs.takeWhile Char.isDigit)
  else none

/-- Matching `re.match(r"^(\d+)/(\d+)/(\d+) (\d+):(\d+):(\d+)$", s)`:
since every separator is a non-digit, the greedy `\d+` groups are exactly
the maximal digit runs. -/
def matchTimestampShape (cs : List Char) : Option TsFields :=
  (digitsThen '/' cs).bind fun m =>
    (digitsThen '/' m.2).bind fun d =>
      (digitsThen ' ' d.2).bind fun y =>
        (digitsThen ':' y.2).bind fun h =>
          (digitsThen ':' h.2).bind fun mi =>
            (digitsEnd mi.2).map fun s => ⟨m.1, d.1, y.1, h.1, mi.1, s⟩

/-- The processed timestamp rebuilt from the zero-padded fields,
`f"{month}/{day}/{year} {hour}:{minute}:{second}"`. -/
def paddedTimestamp (f : TsFields) : List Char :=
  pyZfill 2 f.monthF ++ '/' :: (pyZfill 2 f.dayF ++ '/' :: (pyZfill 4 f.yearF
    ++ ' ' :: (pyZfill 2 f.hourF ++ ':' :: (pyZfill 2 f.minuteF
      ++ ':' :: pyZfill 2 f.secondF))))

/-- Model of `datetime.strptime(s, "%m/%d/%Y %H:%M:%S")`. CPython compiles
the format to the regex `(1[0-2]|0[1-9]|[1-9])/(3[01]|[12]\d|0[1-9]|[1-9])/
(\d\d\d\d) (2[0-3]|[0-1]\d|\d):([0-5]\d|\d):(6[0-1]|[0-5]\d|\d)` with a
full-match requirement; because every component is delimited by a
non-digit, a successful parse forces each digit run to be fully consumed
by its directive, which is equivalent to: the string has the
digits/separators shape and each field full-matches its directive. The
`datetime` constructor then re-validates (rejecting leap seconds and day
overflow). -/
def strptime_mdY_HMS (cs : List Char) : Option PyDatetime :=
  (matchTimestampShape cs).bind fun f =>
    let m := digitsVal f.monthF
    let d := digitsVal f.dayF
    let y := digitsVal f.yearF
    let h := digitsVal f.hourF
    let mi := digitsVal f.minuteF
    let s := digitsVal f.secondF
    if f.monthF.length ≤ 2 ∧ 1 ≤ m ∧ m ≤ 12
        ∧ f.dayF.length ≤ 2 ∧ 1 ≤ d ∧ d ≤ 31
        ∧ f.yearF.length = 4
        ∧ f.hourF.length ≤ 2 ∧ h ≤ 23
        ∧ f.minuteF.length ≤ 2 ∧ mi ≤ 59
        ∧ f.secondF.length ≤ 2 ∧ s ≤ 61 then
      mkDatetime y m d h mi s none
    else none

/-- `parse_votes_csv_timestamp` from `functions/date.py`: strip, match the
timestamp regex (raising a descriptive `ValueError` on failure), zero-pad
the six fields, parse the rebuilt string with `strptime`, and drop any
timezone with `.replace(tzinfo=None)`. (The `len(date_components) != 6`
check can never fire — the regex has exactly six groups — so it adds no
behaviour.) -/
def parse_votes_csv_timestamp (ts0 : List Char) : Except String PyDatetime :=
  let ts := pyStrip ts0
  match matchTimestampShape ts with
  | none =>
    .error ("Cannot parse votes CSV timestamp \"" ++ String.mk ts
      ++ "\"; invalid format")
  | some f =>
    match strptime_mdY_HMS (paddedTimestamp f) with
    | none =>
      .error ("ValueError: time data \"" ++ String.mk (paddedTimestamp f)
        ++ "\" does not match format")
    | some dt =>
      .ok ⟨dt.year, dt.month, dt.day, dt.hour, dt.minute, dt.second, none⟩

/-! Lemmas for the timestamp parser. -/

theorem takeWhile_dropWhile_append {p : Char → Bool} {d rest : List Char} {c : Char}
    (hd : d.all p = true) (hc : p c = false) :
    (d ++ c :: rest).takeWhile p = d ∧ (d ++ c :: rest).dropWhile p = c :: rest := by
  induction d with
  | nil => simp [List.takeWhile_cons, List.dropWhile_cons, hc]
  | cons a t ih =>
    have hd' := hd
    rw [List.all_cons, Bool.and_eq_true] at hd'
    have ht := ih hd'.2
    simp [List.takeWhile_cons, List.dropWhile_cons, hd'.1, ht.1, ht.2]

theorem digitsThen_build {sep : Char} {d rest : List Char}
    (hne : d ≠ []) (hdig : d.all Char.isDigit = true)
    (hsep : sep.isDigit = false) :
    digitsThen sep (d ++ sep :: rest) = some (d, rest) := by
  have h := @takeWhile_dropWhile_append Char.isDigit d rest sep hdig hsep
  unfold digitsThen
  rw [h.1, h.2, if_neg hne]
  simp

theorem digitsEnd_build {d : List Char} (hne : d ≠ [])
    (hdig : d.all Char.isDigit = true) :
    digitsEnd d = some d := by
  have hall : ∀ x ∈ d, Char.isDigit x = true := List.all_eq_true.1 hdig
  have htake : d.takeWhile Char.isDigit = d := List.takeWhile_eq_self_iff.2 hall
  have hdrop : d.dropWhile Char.isDigit = [] := List.dropWhile_eq_nil_iff.2 hall
  unfold digitsEnd
  rw [htake, hdrop, if_neg hne, if_pos rfl]

/-- Building lemma: the timestamp regex matches the rebuilt string and
returns exactly the six fields. -/
theorem matchTimestampShape_build {m d y h mi s : List Char}
    (hm : m ≠ [] ∧ m.all Char.isDigit = true)
    (hd : d ≠ [] ∧ d.all Char.isDigit = true)
    (hy : y ≠ [] ∧ y.all Char.isDigit = true)
    (hh : h ≠ [] ∧ h.all Char.isDigit = true)
    (hmi : mi ≠ [] ∧ mi.all Char.isDigit = true)
    (hs : s ≠ [] ∧ s.all Char.isDigit = true) :
    matchTimestampShape (m ++ '/' :: (d ++ '/' :: (y ++ ' ' :: (h ++ ':' ::
        (mi ++ ':' :: s))))) = some ⟨m, d, y, h, mi, s⟩ := by
  unfold matchTimestampShape
  rw [digitsThen_build hm.1 hm.2 (by decide), Option.some_bind,
    digitsThen_build hd.1 hd.2 (by decide), Option.some_bind,
    digitsThen_build hy.1 hy.2 (by decide), Option.some_bind,
    digitsThen_build hh.1 hh.2 (by decide), Option.some_bind,
    digitsThen_build hmi.1 hmi.2 (by decide), Option.some_bind,
    digitsEnd_build hs.1 hs.2, Option.map_some']

theorem digitsThen_inv {sep : Char} {cs a r : List Char}
    (h : digitsThen sep cs = some (a, r)) :
    a ≠ [] ∧ a.all Char.isDigit = true := by
  unfold digitsThen at h
  by_cases h0 : cs.takeWhile Char.isDigit = []
  · rw [if_pos h0] at h; cases h
  · rw [if_neg h0] at h
    by_cases h1 : (cs.dropWhile Char.isDigit).head? = some sep
    · rw [if_pos h1] at h
      obtain ⟨rfl, -⟩ : cs.takeWhile Char.isDigit = a
          ∧ (cs.dropWhile Char.isDigit).tail = r := by
        injection h with h2
        injection h2 with h3 h4
        exact ⟨h3, h4⟩
      exact ⟨h0, List.all_eq_true.2 (fun x hx => List.mem_takeWhile_imp hx)⟩
    · rw [if_neg h1] at h; cases h

theorem digitsEnd_inv {cs a : List Char} (h : digitsEnd cs = some a) :
    a ≠ [] ∧ a.all Char.isDigit = true := by
  unfold digitsEnd at h
  by_cases h0 : cs.takeWhile Char.isDigit = []
  · rw [if_pos h0] at h; cases h
  · rw [if_neg h0] at h
    by_cases h1 : cs.dropWhile Char.isDigit = []
    · rw [if_pos h1] at h
      obtain rfl : cs.takeWhile Char.isDigit = a := by injection h
      exact ⟨h0, List.all_eq_true.2 (fun x hx => List.mem_takeWhile_imp hx)⟩
    · rw [if_neg h1] at h; cases h

/-- Inversion: a successful regex match yields six nonempty all-digit
fields. -/
theorem matchTimestampShape_inv {cs : List Char} {f : TsFields}
    (h : matchTimestampShape cs = some f) :
    (f.monthF ≠ [] ∧ f.monthF.all Char.isDigit = true)
    ∧ (f.dayF ≠ [] ∧ f.dayF.all Char.isDigit = true)
    ∧ (f.yearF ≠ [] ∧ f.yearF.all Char.isDigit = true)
    ∧ (f.hourF ≠ [] ∧ f.hourF.all Char.isDigit = true)
    ∧ (f.minuteF ≠ [] ∧ f.minuteF.all Char.isDigit = true)
    ∧ (f.secondF ≠ [] ∧ f.secondF.all Char.isDigit = true) := by
  unfold matchTimestampShape at h
  rcases h1 : digitsThen '/' cs with - | m
  · rw [h1] at h; cases h
  rw [h1, Option.some_bind] at h
  rcases h2 : digitsThen '/' m.2 with - | d
  · rw [h2] at h; cases h
  rw [h2, Option.some_bind] at h
  rcases h3 : digitsThen ' ' d.2 with - | y
  · rw [h3] at h; cases h
  rw [h3, Option.some_bind] at h
  rcases h4 : digitsThen ':' y.2 with - | hr
  · rw [h4] at h; cases h
  rw [h4, Option.some_bind] at h
  rcases h5 : digitsThen ':' hr.2 with - | mi
  · rw [h5] at h; cases h
  rw [h5, Option.some_bind] at h
  rcases h6 : digitsEnd mi.2 with - | s
  · rw [h6] at h; cases h
  rw [h6, Option.map_some'] at h
  obtain rfl : (⟨m.1, d.1, y.1, hr.1, mi.1, s⟩ : TsFields) = f := by
    injection h
  exact ⟨digitsThen_inv h1, digitsThen_inv h2, digitsThen_inv h3,
    digitsThen_inv h4, digitsThen_inv h5, digitsEnd_inv h6⟩

theorem dropWhile_eq_self_of_head {p : Char → Bool} {cs : List Char}
    (h : ∀ c, cs.head? = some c → p c = false) : cs.dropWhile p = cs := by
  cases cs with
  | nil => rfl
  | cons c t =>
    rw [List.dropWhile_cons, h c rfl]
    simp

theorem pyStrip_eq_self {cs : List Char}
    (h1 : ∀ c, cs.head? = some c → c.isWhitespace = false)
    (h2 : ∀ c, cs.getLast? = some c → c.isWhitespace = false) :
    pyStrip cs = cs := by
  unfold pyStrip
  rw [dropWhile_eq_self_of_head h1,
    dropWhile_eq_self_of_head (fun c hc => h2 c (by rwa [List.head?_reverse] at hc)),
    List.reverse_reverse]

theorem digit_not_ws {c : Char} (h : c.isDigit = true) :
    c.isWhitespace = false := by
  by_contra hw
  rw [Bool.not_eq_false] at hw
  simp only [Char.isWhitespace, Bool.or_eq_true, decide_eq_true_eq] at hw
  rcases hw with ((h1 | h1) | h1) | h1 <;> subst h1 <;> exact absurd h (by decide)

theorem pyZfill_ne_nil {w : ℕ} {cs : List Char} (h : cs ≠ []) :
    pyZfill w cs ≠ [] := by
  unfold pyZfill
  simp [h]

theorem pyZfill_all_digit {w : ℕ} {cs : List Char}
    (h : cs.all Char.isDigit = true) :
    (pyZfill w cs).all Char.isDigit = true := by
  unfold pyZfill
  rw [List.all_append, h, Bool.and_true]
  exact List.all_eq_true.2 (fun x hx => by
    rw [List.eq_of_mem_replicate hx]
    decide)

theorem pyZfill_idem (w : ℕ) (cs : List Char) :
    pyZfill w (pyZfill w cs) = pyZfill w cs := by
  have hlen : (pyZfill w cs).length = (w - cs.length) + cs.length := by
    unfold pyZfill
    simp
  have h0 : w - (pyZfill w cs).length = 0 := by omega
  conv_lhs => rw [pyZfill, h0]
  simp

/-- **C5.** Every votes-CSV timestamp string of the
numeric-slash-numeric-colon shape parses to exactly the same result as
its fully zero-padded form (in particular the same timezone-naive instant
on success), and every input not of that shape fails with the descriptive
format error. -/
theorem parse_votes_csv_timestamp_correct (cs : List Char) :
    (∀ f, matchTimestampShape (pyStrip cs) = some f →
      parse_votes_csv_timestamp cs = parse_votes_csv_timestamp (paddedTimestamp f))
    ∧ (matchTimestampShape (pyStrip cs) = none →
      parse_votes_csv_timestamp cs =
        .error ("Cannot parse votes CSV timestamp \"" ++ String.mk (pyStrip cs)
          ++ "\"; invalid format")) := by
  constructor
  · intro f hf
    obtain ⟨⟨hm1, hm2⟩, ⟨hd1, hd2⟩, ⟨hy1, hy2⟩, ⟨hh1, hh2⟩, ⟨hmi1, hmi2⟩, ⟨hs1, hs2⟩⟩ :=
      matchTimestampShape_inv hf
    have hsplitLast : paddedTimestamp f =
        (pyZfill 2 f.monthF ++ '/' :: (pyZfill 2 f.dayF ++ '/' :: (pyZfill 4 f.yearF
          ++ ' ' :: (pyZfill 2 f.hourF ++ ':' :: (pyZfill 2 f.minuteF ++ [':'])))))
          ++ pyZfill 2 f.secondF := by
      simp [paddedTimestamp]
    have hstrip : pyStrip (paddedTimestamp f) = paddedTimestamp f := by
      refine pyStrip_eq_self (fun c hc => ?_) (fun c hc => ?_)
      · rw [paddedTimestamp, List.head?_append_of_ne_nil _ (pyZfill_ne_nil hm1)] at hc
        exact digit_not_ws (List.all_eq_true.1 (pyZfill_all_digit hm2) c
          (List.mem_of_mem_head? hc))
      · rw [hsplitLast, List.getLast?_append_of_ne_nil _ (pyZfill_ne_nil hs1)] at hc
        exact digit_not_ws (List.all_eq_true.1 (pyZfill_all_digit hs2) c
          (List.mem_of_getLast?_eq_some hc))
    have hshape : matchTimestampShape (paddedTimestamp f) =
        some ⟨pyZfill 2 f.monthF, pyZfill 2 f.dayF, pyZfill 4 f.yearF,
          pyZfill 2 f.hourF, pyZfill 2 f.minuteF, pyZfill 2 f.secondF⟩ :=
      matchTimestampShape_build ⟨pyZfill_ne_nil hm1, pyZfill_all_digit hm2⟩
        ⟨pyZfill_ne_nil hd1, pyZfill_all_digit hd2⟩
        ⟨pyZfill_ne_nil hy1, pyZfill_all_digit hy2⟩
        ⟨pyZfill_ne_nil hh1, pyZfill_all_digit hh2⟩
        ⟨pyZfill_ne_nil hmi1, pyZfill_all_digit hmi2⟩
        ⟨pyZfill_ne_nil hs1, pyZfill_all_digit hs2⟩
    have hpp : paddedTimestamp ⟨pyZfill 2 f.monthF, pyZfill 2 f.dayF,
        pyZfill 4 f.yearF, pyZfill 2 f.hourF, pyZfill 2 f.minuteF,
        pyZfill 2 f.secondF⟩ = paddedTimestamp f := by
      unfold paddedTimestamp
      simp only [pyZfill_idem]
    simp only [parse_votes_csv_timestamp, hf, hstrip, hshape, hpp]
  · intro hf
    simp only [parse_votes_csv_timestamp, hf]

/-- Witness for C5: the spec example, `4/1/2024 9:5:3` parses identically
to `04/01/2024 09:05:03`. -/
theorem parse_votes_csv_timestamp_correct_witness :
    parse_votes_csv_timestamp ("4/1/2024 9:5:3".data)
      = parse_votes_csv_timestamp ("04/01/2024 09:05:03".data) :=
  ((parse_votes_csv_timestamp_correct ("4/1/2024 9:5:3".data)).1
    ⟨['4'], ['1'], ['2', '0', '2', '4'], ['9'], ['5'], ['3']⟩ (by decide)).trans
    (congrArg parse_votes_csv_timestamp (by decide))

/-! ## Association-list dictionary lemmas -/

theorem find?_map_update_self {α β : Type} [DecidableEq α] {k : α} (v : β)
    {d : List (α × β)} (hc : (d.map Prod.fst).contains k = true) :
    List.find? (fun p => p.1 = k) (d.map (fun p => if p.1 = k then (k, v) else p))
      = some (k, v) := by
  induction d with
  | nil => simp at hc
  | cons p rest ih =>
    by_cases hp : p.1 = k
    · simp only [List.map_cons, if_pos hp]
      rw [List.find?_cons_of_pos _ (by simp)]
    · simp only [List.map_cons, List.contains_cons, Bool.or_eq_true, beq_iff_eq] at hc
      rcases hc with h | h
      · exact absurd h.symm hp
      · simp only [List.map_cons, if_neg hp]
        rw [List.find?_cons_of_neg _ (by simpa using hp)]
        exact ih (by simpa [List.contains_eq_any_beq, List.any_eq_true] using h)

theorem find?_map_update_ne {α β : Type} [DecidableEq α] {k k' : α} (v : β)
    (d : List (α × β)) (h : k' ≠ k) :
    List.find? (fun p => p.1 = k') (d.map (fun p => if p.1 = k then (k, v) else p))
      = List.find? (fun p => p.1 = k') d := by
  induction d with
  | nil => rfl
  | cons p rest ih =>
    by_cases hp : p.1 = k
    · simp only [List.map_cons, if_pos hp]
      rw [List.find?_cons_of_neg _ (by simpa using Ne.symm h),
        List.find?_cons_of_neg _ (by simp [hp, Ne.symm h])]
      exact ih
    · simp only [List.map_cons, if_neg hp]
      by_cases hp' : p.1 = k'
      · rw [List.find?_cons_of_pos _ (by simpa using hp'),
          List.find?_cons_of_pos _ (by simpa using hp')]
      · rw [List.find?_cons_of_neg _ (by simpa using hp'),
          List.find?_cons_of_neg _ (by simpa using hp')]
        exact ih

theorem find?_key_eq_none {α β : Type} [DecidableEq α] {k : α}
    {d : List (α × β)} (hc : ¬ (d.map Prod.fst).contains k = true) :
    d.find? (fun p => p.1 = k) = none := by
  rw [List.find?_eq_none]
  intro p hp hpk
  exact hc (by
    simp only [List.contains_eq_any_beq, List.any_eq_true, beq_iff_eq]
    exact ⟨p.1, List.mem_map_of_mem _ hp, (of_decide_eq_true hpk).symm⟩)

theorem dictGet?_insert_self {α β : Type} [DecidableEq α] (k : α) (v : β)
    (d : List (α × β)) : dictGet? k (dictInsert k v d) = some v := by
  unfold dictInsert dictGet?
  by_cases hc : (d.map Prod.fst).contains k = true
  · rw [if_pos hc, find?_map_update_self v hc]
    rfl
  · rw [if_neg hc, List.find?_append, find?_key_eq_none hc]
    simp [List.find?]

theorem dictGet?_insert_ne {α β : Type} [DecidableEq α] {k k' : α} (v : β)
    (d : List (α × β)) (h : k' ≠ k) :
    dictGet? k' (dictInsert k v d) = dictGet? k' d := by
  unfold dictInsert dictGet?
  by_cases hc : (d.map Prod.fst).contains k = true
  · rw [if_pos hc, find?_map_update_ne v d h]
  · rw [if_neg hc, List.find?_append]
    have h2 : List.find? (fun p => p.1 = k') [(k, v)] = none := by
      simp [List.find?, Ne.symm h]
    rw [h2]
    simp

theorem dictGet?_eq_none_iff {α β : Type} [DecidableEq α] {k : α}
    {d : List (α × β)} : dictGet? k d = none ↔ k ∉ d.map Prod.fst := by
  unfold dictGet?
  rw [Option.map_eq_none', List.find?_eq_none]
  constructor
  · intro h hk
    obtain ⟨p, hp, hpk⟩ := List.mem_map.1 hk
    exact h p hp (by simpa using hpk)
  · intro h p hp hpk
    exact h (List.mem_map.2 ⟨p, hp, of_decide_eq_true hpk⟩)

theorem dictKeys_insert_of_contains {α β : Type} [DecidableEq α] {k : α} (v : β)
    {d : List (α × β)} (hc : (d.map Prod.fst).contains k = true) :
    (dictInsert k v d).map Prod.fst = d.map Prod.fst := by
  unfold dictInsert
  rw [if_pos hc, List.map_map]
  refine List.map_congr_left (fun p hp => ?_)
  by_cases hpk : p.1 = k
  · simp [hpk]
  · simp [hpk]

theorem dictKeys_insert_of_not_contains {α β : Type} [DecidableEq α] {k : α}
    (v : β) {d : List (α × β)} (hc : ¬ (d.map Prod.fst).contains k = true) :
    (dictInsert k v d).map Prod.fst = d.map Prod.fst ++ [k] := by
  unfold dictInsert
  rw [if_neg hc]
  simp

theorem dictKeys_insert_nodup {α β : Type} [DecidableEq α] (k : α) (v : β)
    {d : List (α × β)} (h : (d.map Prod.fst).Nodup) :
    ((dictInsert k v d).map Prod.fst).Nodup := by
  by_cases hc : (d.map Prod.fst).contains k = true
  · rw [dictKeys_insert_of_contains v hc]
    exact h
  · rw [dictKeys_insert_of_not_contains v hc]
    have hk : k ∉ d.map Prod.fst := by
      intro hm
      apply hc
      simp only [List.contains_eq_any_beq, List.any_eq_true, beq_iff_eq]
      exact ⟨k, hm, rfl⟩
    rw [List.nodup_append]
    exact ⟨h, List.nodup_singleton k, fun x hx hm =>
      hk ((List.mem_singleton.1 hm) ▸ hx)⟩

theorem mem_dictKeys_insert {α β : Type} [DecidableEq α] {x k : α} (v : β)
    (d : List (α × β)) :
    x ∈ (dictInsert k v d).map Prod.fst ↔ x = k ∨ x ∈ d.map Prod.fst := by
  by_cases hc : (d.map Prod.fst).contains k = true
  · rw [dictKeys_insert_of_contains v hc]
    constructor
    · exact fun h => Or.inr h
    · rintro (rfl | h)
      · simpa [List.contains_eq_any_beq, List.any_eq_true] using hc
      · exact h
  · rw [dictKeys_insert_of_not_contains v hc]
    simp [or_comm]

theorem dictGet?_of_mem_nodup {α β : Type} [DecidableEq α] {k : α} {v : β}
    {d : List (α × β)} (hnd : (d.map Prod.fst).Nodup) (hm : (k, v) ∈ d) :
    dictGet? k d = some v := by
  induction d with
  | nil => cases hm
  | cons p rest ih =>
    rcases List.mem_cons.1 hm with rfl | hm'
    · unfold dictGet?
      rw [List.find?_cons_of_pos _ (by simp)]
      rfl
    · have hk : k ∈ rest.map Prod.fst :=
        List.mem_map.2 ⟨(k, v), hm', rfl⟩
      have hp : p.1 ≠ k := by
        intro hpk
        rw [List.map_cons, List.nodup_cons] at hnd
        exact hnd.1 (hpk ▸ hk)
      unfold dictGet?
      rw [List.find?_cons_of_neg _ (by simpa using hp)]
      have hnd' : (rest.map Prod.fst).Nodup := by
        rw [List.map_cons, List.nodup_cons] at hnd
        exact hnd.2
      exact ih hnd' hm'

theorem dictGet?_foldl_insert_not_mem {α β : Type} [DecidableEq α] {k : α}
    (ps : List (α × β)) (d0 : List (α × β)) (h : k ∉ ps.map Prod.fst) :
    dictGet? k (ps.foldl (fun d p => dictInsert p.1 p.2 d) d0) = dictGet? k d0 := by
  induction ps generalizing d0 with
  | nil => rfl
  | cons p rest ih =>
    rw [List.map_cons] at h
    have h1 : k ∉ rest.map Prod.fst := fun hm => h (List.mem_cons_of_mem _ hm)
    have h2 : k ≠ p.1 := fun hm => h (hm ▸ List.mem_cons_self _ _)
    rw [List.foldl_cons, ih _ h1, dictGet?_insert_ne _ _ h2]

theorem dictGet?_foldl_insert_mem {α β : Type} [DecidableEq α] {k : α} {v : β}
    {ps : List (α × β)} (d0 : List (α × β)) (hnd : (ps.map Prod.fst).Nodup)
    (hm : (k, v) ∈ ps) :
    dictGet? k (ps.foldl (fun d p => dictInsert p.1 p.2 d) d0) = some v := by
  induction ps generalizing d0 with
  | nil => cases hm
  | cons p rest ih =>
    rw [List.map_cons, List.nodup_cons] at hnd
    rcases List.mem_cons.1 hm with rfl | hm'
    · rw [List.foldl_cons,
        dictGet?_foldl_insert_not_mem rest _ (by simpa using hnd.1)]
      exact dictGet?_insert_self _ _ _
    · rw [List.foldl_cons]
      exact ih _ hnd.2 hm'

/-! Descending sort on rationals, modelling `sorted(..., reverse=True)`.
(Any correct sort models the Python builtin here: the keys being sorted
are distinct dict keys, so the sorted sequence is unique.) -/

def insertDesc (q : ℚ) : List ℚ → List ℚ
  | [] => [q]
  | x :: xs => if x ≤ q then q :: x :: xs else x :: insertDesc q xs

def sortedDescending (qs : List ℚ) : List ℚ :=
  qs.foldr insertDesc []

theorem insertDesc_perm (q : ℚ) (l : List ℚ) :
    List.Perm (insertDesc q l) (q :: l) := by
  induction l with
  | nil => exact List.Perm.refl _
  | cons x xs ih =>
    rw [insertDesc]
    by_cases h : x ≤ q
    · rw [if_pos h]
    · rw [if_neg h]
      exact (ih.cons x).trans (List.Perm.swap q x xs)

theorem sortedDescending_perm (qs : List ℚ) :
    List.Perm (sortedDescending qs) qs := by
  induction qs with
  | nil => exact List.Perm.refl _
  | cons q rest ih =>
    rw [sortedDescending, List.foldr_cons]
    exact (insertDesc_perm q _).trans (ih.cons q)

theorem insertDesc_pairwise {l : List ℚ}
    (h : l.Pairwise (fun a b => b ≤ a)) (q : ℚ) :
    (insertDesc q l).Pairwise (fun a b => b ≤ a) := by
  induction l with
  | nil => simp [insertDesc]
  | cons x xs ih =>
    rw [List.pairwise_cons] at h
    rw [insertDesc]
    by_cases hx : x ≤ q
    · rw [if_pos hx]
      refine List.Pairwise.cons ?_ (List.Pairwise.cons h.1 h.2)
      intro b hb
      rcases List.mem_cons.1 hb with rfl | hbx
      · exact hx
      · exact le_trans (h.1 b hbx) hx
    · rw [if_neg hx]
      refine List.Pairwise.cons ?_ (ih h.2)
      intro b hb
      have hb2 := (insertDesc_perm q xs).mem_iff.1 hb
      rcases List.mem_cons.1 hb2 with rfl | hbx
      · exact le_of_lt (lt_of_not_le hx)
      · exact h.1 b hbx

theorem sortedDescending_pairwise (qs : List ℚ) :
    (sortedDescending qs).Pairwise (fun a b => b ≤ a) := by
  induction qs with
  | nil => exact List.Pairwise.nil
  | cons q rest ih =>
    rw [sortedDescending, List.foldr_cons]
    exact insertDesc_pairwise ih q

/-! ## Grouping folds (`percentage_groups` and the archive index) -/

/-- The result of appending `l` to an optional existing group: a helper
describing one dict-of-lists grouping state. -/
def combineGroup {δ : Type} (o : Option (List δ)) (l : List δ) : Option (List δ) :=
  match o with
  | some g => some (g ++ l)
  | none => if l.isEmpty then none else some l

theorem combineGroup_nil {δ : Type} (o : Option (List δ)) :
    combineGroup o [] = o := by
  cases o <;> simp [combineGroup]

theorem combineGroup_assoc {δ : Type} (o : Option (List δ)) (l1 l2 : List δ) :
    combineGroup (combineGroup o l1) l2 = combineGroup o (l1 ++ l2) := by
  cases o with
  | some g => simp [combineGroup]
  | none =>
    cases l1 with
    | nil => simp [combineGroup]
    | cons a t =>
      cases l2 with
      | nil => simp [combineGroup]
      | cons b u => simp [combineGroup]

/-- One step of the Python dict-of-lists grouping idiom
(`if k not in d: d[k] = []` then `d[k].append(v)`), keyed by `key`,
collecting `val`. -/
def groupStep {κ γ δ : Type} [DecidableEq κ] (key : γ → κ) (val : γ → δ)
    (d : List (κ × List δ)) (x : γ) : List (κ × List δ) :=
  dictInsert (key x)
    (((dictGet? (key x)
        (if dictMem (key x) d then d else dictInsert (key x) [] d)).getD [])
      ++ [val x])
    (if dictMem (key x) d then d else dictInsert (key x) [] d)

/-- The grouping idiom folded over a list. -/
def groupFold {κ γ δ : Type} [DecidableEq κ] (key : γ → κ) (val : γ → δ)
    (xs : List γ) : List (κ × List δ) :=
  xs.foldl (groupStep key val) []

theorem dictMem_eq_isSome {α β : Type} [DecidableEq α] (k : α)
    (d : List (α × β)) : dictMem k d = (dictGet? k d).isSome := by
  unfold dictMem dictGet?
  induction d with
  | nil => rfl
  | cons p rest ih =>
    by_cases hp : p.1 = k
    · rw [List.map_cons, List.contains_cons]
      rw [List.find?_cons_of_pos _ (by simpa using hp)]
      simp [hp]
    · rw [List.map_cons, List.contains_cons]
      rw [List.find?_cons_of_neg _ (by simpa using hp)]
      have hne : ¬ (k == p.1) = true := by simpa using fun h => hp h.symm
      simp only [hne, Bool.false_or]
      exact ih

theorem dictGet?_groupStep {κ γ δ : Type} [DecidableEq κ] (key : γ → κ)
    (val : γ → δ) (d : List (κ × List δ)) (x : γ) (k : κ) :
    dictGet? k (groupStep key val d x)
      = if key x = k then combineGroup (dictGet? k d) [val x]
        else dictGet? k d := by
  by_cases hmem : dictMem (key x) d = true
  · rw [groupStep, if_pos hmem]
    obtain ⟨g, hg⟩ : ∃ g, dictGet? (key x) d = some g := by
      rw [dictMem_eq_isSome] at hmem
      exact Option.isSome_iff_exists.1 hmem
    by_cases hk : key x = k
    · subst hk
      rw [dictGet?_insert_self, if_pos rfl, hg, combineGroup]
      simp
    · rw [dictGet?_insert_ne _ _ (Ne.symm hk), if_neg hk]
  · rw [Bool.not_eq_true] at hmem
    rw [groupStep, hmem]
    simp only [Bool.false_eq_true, if_false]
    by_cases hk : key x = k
    · subst hk
      have hnone : dictGet? (key x) d = none := by
        cases hg : dictGet? (key x) d with
        | none => rfl
        | some g =>
          have h2 := dictMem_eq_isSome (key x) d
          rw [hmem, hg] at h2
          simp at h2
      rw [dictGet?_insert_self, dictGet?_insert_self, if_pos rfl, hnone,
        combineGroup]
      simp
    · rw [dictGet?_insert_ne _ _ (Ne.symm hk), dictGet?_insert_ne _ _ (Ne.symm hk),
        if_neg hk]

theorem dictGet?_groupFoldl {κ γ δ : Type} [DecidableEq κ] (key : γ → κ)
    (val : γ → δ) (xs : List γ) (d0 : List (κ × List δ)) (k : κ) :
    dictGet? k (xs.foldl (groupStep key val) d0)
      = combineGroup (dictGet? k d0)
          ((xs.filter (fun x => key x = k)).map val) := by
  induction xs generalizing d0 with
  | nil => rw [List.foldl_nil, List.filter_nil, List.map_nil, combineGroup_nil]
  | cons x rest ih =>
    rw [List.foldl_cons, ih, dictGet?_groupStep key val d0 x k]
    by_cases hk : key x = k
    · rw [if_pos hk, combineGroup_assoc, List.filter_cons,
        if_pos (by simpa using hk)]
      simp
    · rw [if_neg hk, List.filter_cons, if_neg (by simpa using hk)]

/-- Lookup in a grouping fold: the group for key `k` is exactly the
(`val`-projected) sublist of items whose key is `k`, present iff that
sublist is nonempty. -/
theorem dictGet?_groupFold {κ γ δ : Type} [DecidableEq κ] (key : γ → κ)
    (val : γ → δ) (xs : List γ) (k : κ) :
    dictGet? k (groupFold key val xs)
      = if (xs.filter (fun x => key x = k)).isEmpty then none
        else some ((xs.filter (fun x => key x = k)).map val) := by
  rw [groupFold, dictGet?_groupFoldl]
  have h0 : dictGet? k ([] : List (κ × List δ)) = none := rfl
  rw [h0, combineGroup]
  cases hf : xs.filter (fun x => key x = k) with
  | nil => simp
  | cons a t => simp

/-! ## Ranking engine (functions/top_10_calc.py) -/

/-- The number of non-blank entries of one ballot row
(`len(list(filter(lambda title: title, title_row)))` — a Python string is
truthy iff nonempty). -/
def voteCount (row : List String) : ℕ :=
  (row.filter (fun t => t ≠ "")).length

/-- One `title_counts[title] += 1` step, including the
`if title not in title_counts: title_counts[title] = 0` initialisation. -/
def tallyStep (counts : List (String × ℕ)) (title : String) :
    List (String × ℕ) :=
  dictInsert title
    ((dictGet? title
      (if dictMem title counts then counts
       else dictInsert title 0 counts)).getD 0 + 1)
    (if dictMem title counts then counts else dictInsert title 0 counts)

/-- The double tally loop of `calc_ranked_records`: count the occurrences
of every title (blanks included) across all ballot rows. -/
def tallyTitles (title_rows : List (List String)) : List (String × ℕ) :=
  title_rows.foldl (fun counts title_row => title_row.foldl tallyStep counts) []

/-- `if "" in title_counts: del title_counts[""]` — remove the blank-title
entry (a `del` of an absent key is covered because filtering then changes
nothing). -/
def delBlank (counts : List (String × ℕ)) : List (String × ℕ) :=
  counts.filter (fun p => p.1 ≠ "")

/-- The ballot-validation loop of `calc_ranked_records`: count the ballots
with at least 5 non-blank entries, raising `ValueError` at the first
ballot with between 1 and 4; `i` is the running 0-based row index (the
reported line number is `i + 2`). -/
def countVoters : List (List String) → ℕ → Except String ℕ
  | [], _ => .ok 0
  | row :: rest, i =>
    if 5 ≤ voteCount row then (countVoters rest (i + 1)).map (· + 1)
    else if voteCount row ≠ 0 then
      .error ("Only " ++ toString (voteCount row)
        ++ " votes included in ballot line ~" ++ toString (i + 2)
        ++ " when at least 5 are required")
    else countVoters rest (i + 1)

/-- The percentage dict comprehension
`{title: (count / counted_voters) * 100 for title, count in ...}`
(its keys are the — distinct — keys of `title_counts`, so the dict build
is a plain map). -/
def titlePercentages (counts : List (String × ℕ)) (counted_voters : ℕ) :
    List (String × ℚ) :=
  counts.map (fun p => (p.1, ((p.2 : ℚ) / (counted_voters : ℚ)) * 100))

/-- The `percentage_groups` dict of `calc_ranked_records`: group the
titles by their exact percentage value, in insertion order. -/
def percentageGroups (title_percentages : List (String × ℚ)) :
    List (ℚ × List String) :=
  groupFold Prod.snd Prod.fst title_percentages

/-- Modelled from the spec: `sample_item_without_replacement` (defined in
`functions/general.py`, which is not among the analysed sources) removes
and returns a uniformly random item of a nonempty list. The randomness
source is made explicit as a selector `pick` choosing the index of the
sampled item (taken modulo the list length); every run of the original
corresponds to some selector, so properties proved for all selectors
cover every random outcome. The `while len(percentage_group) > 0`
sampling loop of `calc_ranked_records` thus emits the permutation
`shuffleBy pick percentage_group`. -/
def shuffleGo (pick : List String → ℕ) : ℕ → List String → List String
  | 0, _ => []
  | fuel + 1, l =>
    if l = [] then []
    else l.getD (pick l % l.length) ""
      :: shuffleGo pick fuel (l.eraseIdx (pick l % l.length))

/-- The sampling loop applied to a whole group: each iteration removes
exactly one item, so the loop runs exactly `l.length` times (made
explicit as structural fuel). -/
def shuffleBy (pick : List String → ℕ) (l : List String) : List String :=
  shuffleGo pick l.length l

/-- The tie-break ranking loop of `calc_ranked_records`: walk the
percentages in descending order, shuffle each percentage group via the
sampling loop, and record each sampled title's tie-broken flag (set to
`False` and overwritten to `True` when the group has more than one title
— net effect: the flag equals `len(percentage_group) > 1`). Returns
`(ranked_titles, tie_broken)`. -/
def rankGroups (pick : List String → ℕ)
    (percentage_groups : List (ℚ × List String)) :
    List String × List (String × Bool) :=
  (sortedDescending (percentage_groups.map Prod.fst)).foldl
    (fun acc percentage =>
      (acc.1 ++ shuffleBy pick ((dictGet? percentage percentage_groups).getD []),
        (shuffleBy pick ((dictGet? percentage percentage_groups).getD [])).foldl
          (fun tb t =>
            dictInsert t
              (decide (1 < ((dictGet? percentage percentage_groups).getD []).length))
              tb)
          acc.2))
    ([], [])

/-- One output record of `calc_ranked_records` (the Python dict with keys
Title / Uploader / Percentage / Total Votes / URL / Notes). -/
structure RankedRecord where
  title : String
  uploader : String
  percentage : String
  totalVotes : ℕ
  url : String
  notes : String
deriving DecidableEq, Repr

/-- Round a (nonnegative, in our use) rational to the nearest integer,
half to even — the rounding CPython's fixed-point float formatting
applies. -/
def roundHalfEven (q : ℚ) : ℤ :=
  if q - (⌊q⌋ : ℚ) < 1 / 2 then ⌊q⌋
  else if (1 : ℚ) / 2 < q - (⌊q⌋ : ℚ) then ⌊q⌋ + 1
  else if ⌊q⌋ % 2 = 0 then ⌊q⌋ else ⌊q⌋ + 1

/-- `f"{x:.4f}"`, modelled on the exact rational percentage: fixed-point
rendering with 4 decimal places (the double-precision detour of the
original is abstracted away by rendering the exact value). -/
def fmt4 (q : ℚ) : String :=
  toString (roundHalfEven (q * 10000) / 10000)
    ++ "." ++ String.mk (pyZfill 4 (toString ((roundHalfEven (q * 10000) % 10000).toNat)).data)

/-- `d[k]` on a Python dict where a missing key raises `KeyError`. -/
def pyDictGet {β : Type} (k : String) (d : List (String × β)) :
    Except String β :=
  match dictGet? k d with
  | some v => .ok v
  | none => .error ("KeyError: " ++ k)

/-- The record-construction loop of `calc_ranked_records`: for each ranked
title, look up uploader (degrading `None` to the empty string), formatted
percentage, raw count, URL and tie-break note. Lookup failures are
`KeyError`s, raised in the evaluation order of the original (uploader
first, then the record literal fields in order). -/
def buildRecords (tps : List (String × ℚ)) (tcs : List (String × ℕ))
    (titles_to_uploaders : List (String × Option String))
    (titles_to_urls : List (String × String))
    (tie_broken : List (String × Bool)) :
    List String → Except String (List RankedRecord)
  | [] => .ok []
  | title :: rest =>
    match pyDictGet title titles_to_uploaders with
    | .error e => .error e
    | .ok uploader =>
      match pyDictGet title tps with
      | .error e => .error e
      | .ok percentage =>
        match pyDictGet title tcs with
        | .error e => .error e
        | .ok count =>
          match pyDictGet title titles_to_urls with
          | .error e => .error e
          | .ok url =>
            match pyDictGet title tie_broken with
            | .error e => .error e
            | .ok flag =>
              match buildRecords tps tcs titles_to_uploaders titles_to_urls
                  tie_broken rest with
              | .error e => .error e
              | .ok records =>
                .ok (⟨title, uploader.getD "", fmt4 percentage ++ "%", count, url,
                  if flag then "Tie broken randomly by computer" else ""⟩
                    :: records)

/-- `calc_ranked_records` from `functions/top_10_calc.py`, parametrised by
the sampling selector `pick` (see `shuffleBy`). The
`counted_voters = 0` percentage comprehension over a nonempty tally would
raise `ZeroDivisionError` in Python, modelled by the explicit guard. -/
def calc_ranked_records (pick : List String → ℕ)
    (title_rows : List (List String))
    (titles_to_urls : List (String × String))
    (titles_to_uploaders : List (String × Option String)) :
    Except String (List RankedRecord) :=
  match countVoters title_rows 0 with
  | .error e => .error e
  | .ok counted_voters =>
    if counted_voters = 0 ∧ delBlank (tallyTitles title_rows) ≠ [] then
      .error "ZeroDivisionError: division by zero"
    else
      buildRecords
        (titlePercentages (delBlank (tallyTitles title_rows)) counted_voters)
        (delBlank (tallyTitles title_rows))
        titles_to_uploaders titles_to_urls
        (rankGroups pick (percentageGroups
          (titlePercentages (delBlank (tallyTitles title_rows)) counted_voters))).2
        (rankGroups pick (percentageGroups
          (titlePercentages (delBlank (tallyTitles title_rows)) counted_voters))).1

/-- `get_titles_to_urls_mapping` from `functions/top_10_calc.py`:
`zip(title_rows, url_rows, strict=True)` raises `ValueError` when the row
counts differ (modelled as an up-front length check — equivalent here
because the partially built dict is discarded when the lazy zip raises);
the inner `zip` is *not* strict and silently truncates to the shorter
row. -/
def get_titles_to_urls_mapping (title_rows url_rows : List (List String)) :
    Except String (List (String × String)) :=
  if title_rows.length ≠ url_rows.length then
    .error "ValueError: zip() arguments have different lengths"
  else
    .ok ((title_rows.zip url_rows).foldl
      (fun acc rows =>
        (rows.1.zip rows.2).foldl (fun acc p => dictInsert p.1 p.2 acc) acc) [])

/-- The `VideoData` record shape produced by the fetch services (the
`classes/typing.py` declaration is not among the analysed sources; the
field set is taken from the construction sites in
`classes/fetch_services.py`, where every field other than the platform
label may be `None`). -/
structure VideoData where
  title : Option String
  uploader : Option String
  upload_date : Option String
  duration : Option ℤ
  platform : String
deriving DecidableEq, Repr

/-- The loop of `get_titles_to_uploaders`, with the accumulated dict made
explicit: `videos_data[url]` raises `KeyError` when the URL is absent;
when present but `None`, the uploader degrades to `None`
(`video_data["uploader"] if video_data is not None else None`). -/
def get_titles_to_uploaders_go (videos_data : List (String × Option VideoData)) :
    List (String × String) → List (String × Option String)
    → Except String (List (String × Option String))
  | [], acc => .ok acc
  | (title, url) :: rest, acc =>
    match dictGet? url videos_data with
    | none => .error ("KeyError: " ++ url)
    | some video_data =>
      get_titles_to_uploaders_go videos_data rest
        (dictInsert title (video_data.bind VideoData.uploader) acc)

/-- `get_titles_to_uploaders` from `functions/top_10_calc.py`. -/
def get_titles_to_uploaders (titles_to_urls : List (String × String))
    (videos_data : List (String × Option VideoData)) :
    Except String (List (String × Option String)) :=
  get_titles_to_uploaders_go videos_data titles_to_urls []

/-! ## Historical anniversary lookup (`get_history`) -/

/-- The archive-record shape (`classes/typing.py` is not among the
analysed sources; fields follow §3/§6 of the archive contract). The
month/year cells are modelled already converted to integers — the
`int(...)` coercions in `get_history` then act as the identity. -/
structure ArchiveRecord where
  month : ℤ
  year : ℤ
  title : String
  uploader : String
  url : String
  percentage : String
  total_votes : String
  notes : String
deriving DecidableEq, Repr

/-- `datetime.strftime("%B")` month names. -/
def monthName : ℤ → String
  | 1 => "January"
  | 2 => "February"
  | 3 => "March"
  | 4 => "April"
  | 5 => "May"
  | 6 => "June"
  | 7 => "July"
  | 8 => "August"
  | 9 => "September"
  | 10 => "October"
  | 11 => "November"
  | 12 => "December"
  | _ => ""

/-- The diagnostic emitted for a missing anniversary bucket. -/
def missingAnniversaryMsg (month anni_year : ℤ) : String :=
  "Warning: No historical entries found for " ++ monthName month ++ " "
    ++ toString anni_year
    ++ ". Your local copy of the Top 10 Pony Videos master archive "
    ++ "(data/top_10_master_archive.csv) may be out of date."

/-- The anniversary loop of `get_history`, with the result dict and the
emitted diagnostics made explicit. On a `KeyError` the handler constructs
`datetime(anni_year, month, 1)` for the message — which itself raises
`ValueError` (uncaught) when `anni_year` is outside `MINYEAR..MAXYEAR`. -/
def get_history_go (index : List ((ℤ × ℤ) × List ArchiveRecord))
    (month year : ℤ) :
    List ℤ → List (ℤ × List ArchiveRecord) → List String
    → Except String (List (ℤ × List ArchiveRecord) × List String)
  | [], hist, diags => .ok (hist, diags)
  | num_years :: rest, hist, diags =>
    match dictGet? (month, year - num_years) index with
    | some records =>
      get_history_go index month year rest (dictInsert num_years records hist) diags
    | none =>
      if 1 ≤ year - num_years ∧ year - num_years ≤ 9999 then
        get_history_go index month year rest hist
          (diags ++ [missingAnniversaryMsg month (year - num_years)])
      else .error "ValueError: year is out of range"

/-- `get_history` from `functions/top_10_calc.py`: index the archive by
(month, year), then answer each anniversary offset from the index,
emitting a non-fatal diagnostic for each missing bucket (unless even the
diagnostic date cannot be constructed). Only `from_date.month` and
`from_date.year` are read from the reference date. -/
def get_history (archive_records : List ArchiveRecord) (month year : ℤ)
    (anniversaries : List ℤ) :
    Except String (List (ℤ × List ArchiveRecord) × List String) :=
  get_history_go
    (groupFold (fun r => (r.month, r.year)) id archive_records)
    month year anniversaries [] []

/-! ## yt-dlp fetch service, twitter/x branch (classes/fetch_services.py) -/

/-- The yt-dlp response fields read and written by the twitter/x arm of
`YtDlpFetchService.request`. -/
structure YtDlpResponse where
  title : Option String
  uploader_id : Option String
  channel : Option String
  upload_date : Option String
  duration : Option ℤ
deriving DecidableEq, Repr

/-- `urlparse(url).netloc` for the URLs this service receives: the text
between the first `//` and the following `/`, `?` or `#` (empty when the
URL has no `//`). -/
def netlocOf : List Char → List Char
  | '/' :: '/' :: rest =>
    rest.takeWhile (fun c => c ≠ '/' ∧ c ≠ '?' ∧ c ≠ '#')
  | _ :: rest => netlocOf rest
  | [] => []

/-- `site = netloc.split("."); site = site[0] if len(site) == 2 else
site[1]` — `site[1]` raises `IndexError` when the netloc has no dot. -/
def siteOf (url : List Char) : Except String (List Char) :=
  if (pySplitChar '.' (netlocOf url)).length = 2 then
    .ok ((pySplitChar '.' (netlocOf url)).getD 0 [])
  else if 2 ≤ (pySplitChar '.' (netlocOf url)).length then
    .ok ((pySplitChar '.' (netlocOf url)).getD 1 [])
  else .error "IndexError: list index out of range"

/-- Python `str.rfind(c)`: index of the last occurrence, `-1` if absent. -/
def pyRfind (c : Char) : List Char → ℤ
  | [] => -1
  | x :: rest =>
    if 0 ≤ pyRfind c rest then pyRfind c rest + 1
    else if x = c then 0 else -1

/-- Python `str(x)` of an optional string (`None` renders as `None`),
used by the f-string building the synthesized title. -/
def pyShowOpt (o : Option String) : String :=
  match o with
  | some s => s
  | none => "None"

/-- The `case "twitter" | "x"` arm of `YtDlpFetchService.request` followed
by the final record assembly, for a response that is not a playlist. The
`self.hash_str` SHA-256 title hash is an external library call, passed in
as the parameter `hash5`; it receives the raw optional title (a `None`
title would crash `hash_str`, which `hash5` is free to model). The
multi-video special case: when `url[0:url.rfind("/")]` ends with
`/video` and the trailing index parses to something other than 1, the
duration is discarded and a diagnostic emitted; a non-numeric trailing
segment makes `int` raise. -/
def ytdlp_request_twitter (hash5 : Option String → String) (url : List Char)
    (response : YtDlpResponse) : Except String (VideoData × List String) :=
  let response1 : YtDlpResponse :=
    { response with
      channel := response.uploader_id,
      title := some ("X post by " ++ pyShowOpt response.uploader_id ++ " ("
        ++ hash5 response.title ++ ")") }
  if ("/video".data).isSuffixOf
      (if pyRfind '/' url < 0 then url.dropLast
       else url.take (pyRfind '/' url).toNat) then
    match pyInt? (url.drop ((pyRfind '/' url) + 1).toNat) with
    | none => .error "ValueError: invalid literal for int() with base 10"
    | some idx =>
      if idx ≠ 1 then
        .ok (⟨response1.title, response1.channel, response1.upload_date, none,
          "Twitter"⟩,
          ["This X post has several videos and the fetched duration is innacurate. So it has been ignored"])
      else
        .ok (⟨response1.title, response1.channel, response1.upload_date,
          response1.duration, "Twitter"⟩, [])
  else
    .ok (⟨response1.title, response1.channel, response1.upload_date,
      response1.duration, "Twitter"⟩, [])

/-! ## C8 — title→URL mapping shape handling -/

/-- Counterexample for C8: tables whose single rows have different
lengths (2 titles, 1 URL) do **not** fail — the inner `zip` silently
truncates and the call returns a mapping. -/
theorem get_titles_to_urls_mapping_counterexample :
    get_titles_to_urls_mapping [["a", "b"]] [["u"]] = .ok [("a", "u")] := by
  rfl

theorem foldl_insert_flatten {α β : Type} [DecidableEq α]
    (rows : List (List α × List β)) (acc : List (α × β)) :
    rows.foldl (fun acc rw =>
        (rw.1.zip rw.2).foldl (fun a p => dictInsert p.1 p.2 a) acc) acc
      = (rows.flatMap (fun rw => rw.1.zip rw.2)).foldl
          (fun a p => dictInsert p.1 p.2 a) acc := by
  induction rows generalizing acc with
  | nil => rfl
  | cons rw rest ih =>
    rw [List.foldl_cons, ih, List.flatMap_cons, List.foldl_append]

theorem flatMap_fst_zip {α β : Type} (rows : List (List α × List β))
    (h : ∀ rw ∈ rows, rw.1.length = rw.2.length) :
    (rows.flatMap (fun rw => rw.1.zip rw.2)).map Prod.fst
      = rows.flatMap Prod.fst := by
  induction rows with
  | nil => rfl
  | cons rw rest ih =>
    rw [List.flatMap_cons, List.flatMap_cons, List.map_append,
      List.map_fst_zip _ _ (le_of_eq (h rw (List.mem_cons_self _ _))),
      ih (fun r hr => h r (List.mem_cons_of_mem _ hr))]

theorem flatMap_fst_zip_self {α β : Type} (l1 : List (List α)) (l2 : List (List β))
    (hlen : l1.length = l2.length) :
    (l1.zip l2).flatMap Prod.fst = l1.flatten := by
  induction l1 generalizing l2 with
  | nil => rfl
  | cons a t ih =>
    cases l2 with
    | nil => cases hlen
    | cons b u =>
      rw [List.zip_cons_cons, List.flatMap_cons, List.flatten_cons,
        ih u (by simpa using hlen)]

/-- **C8 (amended).** Row-count mismatch between the title table and the
URL table makes `get_titles_to_urls_mapping` fail with the strict-zip
`ValueError`; equal row counts always produce a mapping (an inner
row-length mismatch is silently truncated, *not* an error — see the
counterexample); and for equally shaped tables with pairwise-distinct
titles the mapping sends each title to its positionally corresponding
URL. -/
theorem get_titles_to_urls_mapping_correct
    (title_rows url_rows : List (List String)) :
    (title_rows.length ≠ url_rows.length →
      get_titles_to_urls_mapping title_rows url_rows
        = .error "ValueError: zip() arguments have different lengths")
    ∧ (title_rows.length = url_rows.length →
      ∃ m, get_titles_to_urls_mapping title_rows url_rows = .ok m
        ∧ (title_rows.flatten.Nodup →
          (∀ rw ∈ title_rows.zip url_rows, rw.1.length = rw.2.length) →
          ∀ p ∈ (title_rows.zip url_rows).flatMap (fun rw => rw.1.zip rw.2),
            dictGet? p.1 m = some p.2)) := by
  constructor
  · intro hne
    rw [get_titles_to_urls_mapping, if_pos hne]
  · intro hlen
    refine ⟨_, by rw [get_titles_to_urls_mapping, if_neg (by omega)], ?_⟩
    intro hnd hshape p hp
    rw [foldl_insert_flatten]
    have hkeys : ((title_rows.zip url_rows).flatMap
        (fun rw => rw.1.zip rw.2)).map Prod.fst = title_rows.flatten := by
      rw [flatMap_fst_zip _ hshape, flatMap_fst_zip_self _ _ hlen]
    exact dictGet?_foldl_insert_mem _ (hkeys ▸ hnd) (by simpa using hp)

/-- Witness for C8: a row-count mismatch fails; a 1×2 shape maps both
titles positionally. -/
theorem get_titles_to_urls_mapping_correct_witness :
    get_titles_to_urls_mapping [["a"]] []
        = .error "ValueError: zip() arguments have different lengths"
    ∧ ∃ m, get_titles_to_urls_mapping [["a", "b"]] [["x", "y"]] = .ok m
        ∧ dictGet? "a" m = some "x" ∧ dictGet? "b" m = some "y" := by
  constructor
  · exact (get_titles_to_urls_mapping_correct [["a"]] []).1 (by decide)
  · obtain ⟨m, hm, hlook⟩ :=
      (get_titles_to_urls_mapping_correct [["a", "b"]] [["x", "y"]]).2 rfl
    exact ⟨m, hm, hlook (by decide) (by decide) ("a", "x") (by decide),
      hlook (by decide) (by decide) ("b", "y") (by decide)⟩

/-! ## C7 — historical anniversary lookup -/

/-- Counterexample for C7: an offset equal to the reference year makes the
target year 0; with an empty bucket the diagnostic path constructs
`datetime(0, month, 1)`, which raises, aborting the whole lookup instead
of skipping the offset. -/
theorem get_history_counterexample :
    get_history [] 4 2024 [2024] = .error "ValueError: year is out of range" := by
  rfl

theorem get_history_go_spec (index : List ((ℤ × ℤ) × List ArchiveRecord))
    (month year : ℤ) (annis : List ℤ)
    (hrange : ∀ n ∈ annis, 1 ≤ year - n ∧ year - n ≤ 9999) :
    ∀ hist diags, ∃ hist2 diags2,
      get_history_go index month year annis hist diags = .ok (hist2, diags2)
      ∧ (∀ n, dictGet? n hist2 =
          if n ∈ annis ∧ (dictGet? (month, year - n) index).isSome = true
          then dictGet? (month, year - n) index
          else dictGet? n hist)
      ∧ diags2 = diags ++
          (annis.filter (fun n => dictGet? (month, year - n) index = none)).map
            (fun n => missingAnniversaryMsg month (year - n)) := by
  induction annis with
  | nil =>
    intro hist diags
    refine ⟨hist, diags, rfl, fun n => ?_, by simp⟩
    rw [if_neg (fun hc => (List.not_mem_nil n) hc.1)]
  | cons a rest ih =>
    intro hist diags
    have hrest : ∀ n ∈ rest, 1 ≤ year - n ∧ year - n ≤ 9999 :=
      fun n hn => hrange n (List.mem_cons_of_mem _ hn)
    cases hb : dictGet? (month, year - a) index with
    | some records =>
      obtain ⟨hist2, diags2, heq, hget, hdiags⟩ :=
        ih hrest (dictInsert a records hist) diags
      refine ⟨hist2, diags2, ?_, ?_, ?_⟩
      · rw [get_history_go, hb]
        exact heq
      · intro n
        rw [hget n]
        by_cases hmem : n ∈ rest ∧ (dictGet? (month, year - n) index).isSome = true
        · rw [if_pos hmem, if_pos ⟨List.mem_cons_of_mem _ hmem.1, hmem.2⟩]
        · rw [if_neg hmem]
          by_cases hna : n = a
          · subst hna
            rw [if_pos ⟨List.mem_cons_self _ _, by rw [hb]; rfl⟩, hb,
              dictGet?_insert_self]
          · rw [dictGet?_insert_ne _ _ hna]
            rw [if_neg (fun hc => ?_)]
            rcases List.mem_cons.1 hc.1 with h | h
            · exact hna h
            · exact hmem ⟨h, hc.2⟩
      · rw [hdiags, List.filter_cons, if_neg (by simp [hb])]
    | none =>
      obtain ⟨hist2, diags2, heq, hget, hdiags⟩ :=
        ih hrest hist (diags ++ [missingAnniversaryMsg month (year - a)])
      refine ⟨hist2, diags2, ?_, ?_, ?_⟩
      · rw [get_history_go, hb, if_pos (hrange a (List.mem_cons_self _ _))]
        exact heq
      · intro n
        rw [hget n]
        by_cases hmem : n ∈ rest ∧ (dictGet? (month, year - n) index).isSome = true
        · rw [if_pos hmem, if_pos ⟨List.mem_cons_of_mem _ hmem.1, hmem.2⟩]
        · rw [if_neg hmem, if_neg (fun hc => ?_)]
          rcases List.mem_cons.1 hc.1 with h | h
          · subst h
            rw [hb] at hc
            exact Bool.false_ne_true hc.2
          · exact hmem ⟨h, hc.2⟩
      · rw [hdiags, List.filter_cons, if_pos (by simp [hb]), List.append_assoc]
        rfl

/-- **C7 (amended).** For every archive, reference month/year and set of
integer year-offsets *whose target years are all representable datetime
years* (`1 ≤ year − N ≤ 9999` — outside that range the diagnostic path
itself raises, see the counterexample), the lookup succeeds; each offset
whose (month, year−N) bucket is nonempty is mapped to exactly the records
of that bucket in archive order, each offset with an empty bucket is
omitted from the result and contributes a non-fatal diagnostic, and a
missing bucket never prevents the other offsets from being answered. -/
theorem get_history_correct (archive_records : List ArchiveRecord)
    (month year : ℤ) (anniversaries : List ℤ)
    (hrange : ∀ n ∈ anniversaries, 1 ≤ year - n ∧ year - n ≤ 9999) :
    ∃ hist diags,
      get_history archive_records month year anniversaries = .ok (hist, diags)
      ∧ ∀ n ∈ anniversaries,
        (archive_records.filter
            (fun r => (r.month, r.year) = (month, year - n)) ≠ [] →
          dictGet? n hist = some (archive_records.filter
            (fun r => (r.month, r.year) = (month, year - n))))
        ∧ (archive_records.filter
            (fun r => (r.month, r.year) = (month, year - n)) = [] →
          dictGet? n hist = none
            ∧ missingAnniversaryMsg month (year - n) ∈ diags) := by
  obtain ⟨hist, diags, heq, hget, hdiags⟩ :=
    get_history_go_spec
      (groupFold (fun r => (r.month, r.year)) id archive_records)
      month year anniversaries hrange [] []
  refine ⟨hist, diags, heq, fun n hn => ⟨fun hne => ?_, fun hemp => ?_⟩⟩
  · have hbucket := dictGet?_groupFold (fun r => (r.month, r.year)) id
      archive_records (month, year - n)
    rw [if_neg (by simpa [List.isEmpty_iff] using hne), List.map_id] at hbucket
    rw [hget n, if_pos ⟨hn, by rw [hbucket]; rfl⟩, hbucket]
  · have hbucket := dictGet?_groupFold (fun r => (r.month, r.year)) id
      archive_records (month, year - n)
    rw [if_pos (by simpa [List.isEmpty_iff] using hemp)] at hbucket
    constructor
    · have hnot : ¬ (n ∈ anniversaries ∧ (dictGet? (month, year - n)
          (groupFold (fun r => (r.month, r.year)) id archive_records)).isSome
            = true) := by
        intro hc
        rw [hbucket] at hc
        exact Bool.false_ne_true hc.2
      rw [hget n, if_neg hnot]
      rfl
    · rw [hdiags]
      refine List.mem_append_right _ (List.mem_map.2 ⟨n, List.mem_filter.2
        ⟨hn, by simp [hbucket]⟩, rfl⟩)

/-- Witness for C7 (amended): the spec scenario — an archive with one
April 2019 record, reference April 2024, offsets [5, 10]: the 5-year
bucket is answered, the 10-year offset is omitted with a diagnostic. -/
theorem get_history_correct_witness :
    ∃ hist diags,
      get_history [⟨4, 2019, "t", "u", "url", "50.0000%", "3", ""⟩] 4 2024 [5, 10]
        = .ok (hist, diags)
      ∧ dictGet? 5 hist = some [⟨4, 2019, "t", "u", "url", "50.0000%", "3", ""⟩]
      ∧ dictGet? 10 hist = none
      ∧ missingAnniversaryMsg 4 2014 ∈ diags := by
  obtain ⟨hist, diags, heq, hprop⟩ :=
    get_history_correct [⟨4, 2019, "t", "u", "url", "50.0000%", "3", ""⟩]
      4 2024 [5, 10] (by decide)
  refine ⟨hist, diags, heq, ?_, ?_, ?_⟩
  · exact ((hprop 5 (by decide)).1 (by decide)).trans (congrArg some (by decide))
  · exact ((hprop 10 (by decide)).2 (by decide)).1
  · exact ((hprop 10 (by decide)).2 (by decide)).2

/-! ## C2 — uploader resolution -/

/-- Counterexample for C2: a title whose URL is absent from the fetched
metadata raises `KeyError` instead of degrading to an unknown uploader. -/
theorem get_titles_to_uploaders_counterexample :
    get_titles_to_uploaders [("t", "u")] [] = .error "KeyError: u" := by
  rfl

theorem get_titles_to_uploaders_go_spec
    (videos_data : List (String × Option VideoData))
    (t2u : List (String × String))
    (hurls : ∀ p ∈ t2u, (dictGet? p.2 videos_data).isSome = true) :
    ∀ acc, ∃ m, get_titles_to_uploaders_go videos_data t2u acc = .ok m
      ∧ (∀ k, k ∉ t2u.map Prod.fst → dictGet? k m = dictGet? k acc)
      ∧ ((t2u.map Prod.fst).Nodup → ∀ p ∈ t2u,
          ∃ video_data, dictGet? p.2 videos_data = some video_data
            ∧ dictGet? p.1 m = some (video_data.bind VideoData.uploader)) := by
  induction t2u with
  | nil => exact fun acc => ⟨acc, rfl, fun k _ => rfl, fun _ p hp => absurd hp
      (List.not_mem_nil p)⟩
  | cons q rest ih =>
    intro acc
    obtain ⟨title, url⟩ := q
    obtain ⟨vdata, hvd⟩ : ∃ v, dictGet? url videos_data = some v :=
      Option.isSome_iff_exists.1 (hurls (title, url) (List.mem_cons_self _ _))
    have hrest : ∀ p ∈ rest, (dictGet? p.2 videos_data).isSome = true :=
      fun p hp => hurls p (List.mem_cons_of_mem _ hp)
    obtain ⟨m, heq, huntouched, hnodup⟩ :=
      ih hrest (dictInsert title (vdata.bind VideoData.uploader) acc)
    refine ⟨m, ?_, ?_, ?_⟩
    · rw [get_titles_to_uploaders_go, hvd]
      exact heq
    · intro k hk
      rw [List.map_cons] at hk
      have hk1 : k ∉ rest.map Prod.fst := fun hm => hk (List.mem_cons_of_mem _ hm)
      have hk2 : k ≠ title := fun hm => hk (hm ▸ List.mem_cons_self _ _)
      rw [huntouched k hk1, dictGet?_insert_ne _ _ hk2]
    · intro hnd p hp
      rw [List.map_cons, List.nodup_cons] at hnd
      rcases List.mem_cons.1 hp with heq2 | hmem
      · obtain rfl : p = (title, url) := heq2
        refine ⟨vdata, hvd, ?_⟩
        rw [huntouched title hnd.1, dictGet?_insert_self]
      · exact hnodup hnd.2 p hmem

/-- **C2 (amended).** During ranked-record construction, a title whose
URL maps to *null* fetched metadata degrades to a `None` uploader
(rendered as the empty string in the output record) without raising; but
a title whose URL is *absent* from the fetched-metadata dictionary makes
`get_titles_to_uploaders` raise `KeyError` (see the counterexample) —
absence of the key, unlike a null value, does abort construction. -/
theorem get_titles_to_uploaders_correct (t2u : List (String × String))
    (videos_data : List (String × Option VideoData))
    (hurls : ∀ p ∈ t2u, (dictGet? p.2 videos_data).isSome = true)
    (hnd : (t2u.map Prod.fst).Nodup) :
    ∃ m, get_titles_to_uploaders t2u videos_data = .ok m
      ∧ ∀ p ∈ t2u, ∃ video_data,
          dictGet? p.2 videos_data = some video_data
          ∧ dictGet? p.1 m = some (video_data.bind VideoData.uploader)
          ∧ (video_data = none →
              dictGet? p.1 m = some none) := by
  obtain ⟨m, heq, -, hprop⟩ := get_titles_to_uploaders_go_spec videos_data t2u hurls []
  refine ⟨m, heq, fun p hp => ?_⟩
  obtain ⟨vdata, hvd, hlook⟩ := hprop hnd p hp
  exact ⟨vdata, hvd, hlook, fun hnone => by rw [hlook, hnone]; rfl⟩

/-- Witness for C2 (amended): null metadata for `u` degrades to a `None`
uploader; no exception. -/
theorem get_titles_to_uploaders_correct_witness :
    ∃ m, get_titles_to_uploaders [("t", "u")] [("u", none)] = .ok m
      ∧ dictGet? "t" m = some none := by
  obtain ⟨m, heq, hprop⟩ :=
    get_titles_to_uploaders_correct [("t", "u")] [("u", none)]
      (by decide) (by decide)
  obtain ⟨vdata, hvd, -, hdeg⟩ := hprop ("t", "u") (List.mem_cons_self _ _)
  refine ⟨m, heq, hdeg ?_⟩
  have h2 : some vdata = some none := by rw [← hvd]; rfl
  exact Option.some_injective _ h2

/-! ## C9 — twitter/x multi-video duration handling -/

theorem pyRfind_not_mem {c : Char} {l : List Char} (h : c ∉ l) :
    pyRfind c l = -1 := by
  induction l with
  | nil => rfl
  | cons x rest ih =>
    have hx : x ≠ c := fun he => h (he ▸ List.mem_cons_self ..)
    have hr : c ∉ rest := fun hm => h (List.mem_cons_of_mem _ hm)
    rw [pyRfind, ih hr]
    norm_num [hx]

theorem pyRfind_append_last {pre digits : List Char} (h : '/' ∉ digits) :
    pyRfind '/' (pre ++ '/' :: digits) = (pre.length : ℤ) := by
  induction pre with
  | nil =>
    rw [List.nil_append, pyRfind, pyRfind_not_mem h]
    norm_num
  | cons x rest ih =>
    rw [List.cons_append, pyRfind, ih, if_pos (by positivity),
      List.length_cons]
    push_cast
    ring

/-- **C9.** In the yt-dlp fetch service's twitter/x branch, a URL that
addresses one of several videos of a post by a trailing numeric index
(`…/video/N`) has its extracted duration discarded with a diagnostic
whenever the index value differs from 1, and keeps the extracted duration
with no diagnostic when the index value is 1. -/
theorem ytdlp_twitter_video_index (hash5 : Option String → String)
    (pre digits : List Char) (resp : YtDlpResponse)
    (hne : digits ≠ []) (hdig : digits.all Char.isDigit = true) :
    ∃ rec diags,
      ytdlp_request_twitter hash5 (pre ++ "/video".data ++ '/' :: digits) resp
        = .ok (rec, diags)
      ∧ (digitsVal digits ≠ 1 → rec.duration = none ∧ diags =
          ["This X post has several videos and the fetched duration is innacurate. So it has been ignored"])
      ∧ (digitsVal digits = 1 → rec.duration = resp.duration ∧ diags = []) := by
  have hslash : '/' ∉ digits := letter_not_mem_digits hdig (by decide)
  have hrf : pyRfind '/' ((pre ++ "/video".data) ++ '/' :: digits)
      = ((pre ++ "/video".data).length : ℤ) := pyRfind_append_last hslash
  have hnotlt : ¬ (pyRfind '/' ((pre ++ "/video".data) ++ '/' :: digits) < 0) := by
    rw [hrf]
    omega
  have htoNat : (pyRfind '/' ((pre ++ "/video".data) ++ '/' :: digits)).toNat
      = (pre ++ "/video".data).length := by
    rw [hrf]
    exact Int.toNat_natCast _
  have htake : ((pre ++ "/video".data) ++ '/' :: digits).take
      (pre ++ "/video".data).length = pre ++ "/video".data :=
    List.take_left _ _
  have hsuffix : ("/video".data).isSuffixOf (pre ++ "/video".data) = true :=
    List.isSuffixOf_iff_suffix.mpr (List.suffix_append pre _)
  have hdropNat : ((pyRfind '/' ((pre ++ "/video".data) ++ '/' :: digits)) + 1).toNat
      = ((pre ++ "/video".data) ++ ['/']).length := by
    rw [hrf]
    simp only [List.length_append, List.length_cons, List.length_nil]
    omega
  have hdrop : ((pre ++ "/video".data) ++ '/' :: digits).drop
      ((pre ++ "/video".data) ++ ['/']).length = digits := by
    rw [show (pre ++ "/video".data) ++ '/' :: digits
      = ((pre ++ "/video".data) ++ ['/']) ++ digits by simp]
    exact List.drop_left _ _
  have hint : pyInt? digits = some (digitsVal digits) := by
    rw [pyInt?, if_pos ⟨hne, hdig⟩]
  simp only [ytdlp_request_twitter, hnotlt, if_false, htoNat, htake, hsuffix,
    if_true, hdropNat, hdrop, hint]
  by_cases hv : digitsVal digits = 1
  · rw [if_neg (by simpa using hv)]
    exact ⟨_, _, rfl, fun hc => absurd hv hc, fun _ => ⟨rfl, rfl⟩⟩
  · rw [if_pos hv]
    exact ⟨_, _, rfl, fun _ => ⟨rfl, rfl⟩, fun hc => absurd hc hv⟩

/-- Witness for C9: index 2 discards the duration with a diagnostic;
index 1 keeps it. -/
theorem ytdlp_twitter_video_index_witness :
    (∃ rec diags,
      ytdlp_request_twitter (fun _ => "abcde")
          ("https://x.com/u/status/99".data ++ "/video".data ++ '/' :: ['2'])
          ⟨some "t", some "uid", none, none, some 10⟩ = .ok (rec, diags)
        ∧ rec.duration = none
        ∧ diags = ["This X post has several videos and the fetched duration is innacurate. So it has been ignored"])
    ∧ (∃ rec diags,
      ytdlp_request_twitter (fun _ => "abcde")
          ("https://x.com/u/status/99".data ++ "/video".data ++ '/' :: ['1'])
          ⟨some "t", some "uid", none, none, some 10⟩ = .ok (rec, diags)
        ∧ rec.duration = some 10 ∧ diags = []) := by
  constructor
  · obtain ⟨rec, diags, heq, hne1, -⟩ :=
      ytdlp_twitter_video_index (fun _ => "abcde")
        "https://x.com/u/status/99".data ['2']
        ⟨some "t", some "uid", none, none, some 10⟩ (by decide) (by decide)
    obtain ⟨hdur, hdiags⟩ := hne1 (by decide)
    exact ⟨rec, diags, heq, hdur, hdiags⟩
  · obtain ⟨rec, diags, heq, -, h1⟩ :=
      ytdlp_twitter_video_index (fun _ => "abcde")
        "https://x.com/u/status/99".data ['1']
        ⟨some "t", some "uid", none, none, some 10⟩ (by decide) (by decide)
    obtain ⟨hdur, hdiags⟩ := h1 (by decide)
    exact ⟨rec, diags, heq, hdur, hdiags⟩

/-! ## C1 / C10 — ballot validation and the blank tally -/

theorem countVoters_ok_valid (rows : List (List String))
    (hvalid : ∀ r ∈ rows, voteCount r = 0 ∨ 5 ≤ voteCount r) :
    ∀ i, countVoters rows i
      = .ok ((rows.filter (fun r => 5 ≤ voteCount r)).length) := by
  induction rows with
  | nil => intro i; rfl
  | cons row rest ih =>
    intro i
    have ihv := ih (fun r hr => hvalid r (List.mem_cons_of_mem _ hr))
    rcases hvalid row (List.mem_cons_self _ _) with h0 | h5
    · rw [countVoters, if_neg (by omega), if_neg (by omega), ihv (i + 1),
        List.filter_cons, if_neg (by simpa using by omega)]
    · rw [countVoters, if_pos h5, ihv (i + 1), List.filter_cons,
        if_pos (by simpa using h5)]
      rfl

theorem countVoters_error_at (rows : List (List String)) (j : ℕ)
    (hj : j < rows.length)
    (h1 : 1 ≤ voteCount (rows.getD j []))
    (h4 : voteCount (rows.getD j []) ≤ 4)
    (hfirst : ∀ l, l < j →
      voteCount (rows.getD l []) = 0 ∨ 5 ≤ voteCount (rows.getD l [])) :
    ∀ i, countVoters rows i
      = .error ("Only " ++ toString (voteCount (rows.getD j []))
        ++ " votes included in ballot line ~" ++ toString (i + j + 2)
        ++ " when at least 5 are required") := by
  induction rows generalizing j with
  | nil => exact absurd hj (by simp)
  | cons row rest ih =>
    intro i
    cases j with
    | zero =>
      rw [List.getD_cons_zero] at h1 h4 ⊢
      rw [countVoters, if_neg (by omega), if_pos (by omega)]
    | succ j =>
      rw [List.getD_cons_succ] at h1 h4 ⊢
      have hfirst' : ∀ l, l < j →
          voteCount (rest.getD l []) = 0 ∨ 5 ≤ voteCount (rest.getD l []) := by
        intro l hl
        have := hfirst (l + 1) (by omega)
        rwa [List.getD_cons_succ] at this
      have hrec := ih j (by simpa using Nat.lt_of_succ_lt_succ hj) h1 h4 hfirst' (i + 1)
      have harith : i + 1 + j + 2 = i + (j + 1) + 2 := by omega
      rw [harith] at hrec
      rcases hfirst 0 (by omega) with h0 | h5
      · rw [List.getD_cons_zero] at h0
        rw [countVoters, if_neg (by omega), if_neg (by omega), hrec]
      · rw [List.getD_cons_zero] at h5
        rw [countVoters, if_pos h5, hrec]
        rfl

theorem countVoters_ok_zero (rows : List (List String)) :
    ∀ i, countVoters rows i = .ok 0 → ∀ r ∈ rows, voteCount r = 0 := by
  induction rows with
  | nil => intro i _ r hr; cases hr
  | cons row rest ih =>
    intro i h r hr
    rw [countVoters] at h
    by_cases h5 : 5 ≤ voteCount row
    · rw [if_pos h5] at h
      cases hcv : countVoters rest (i + 1) with
      | error e => rw [hcv] at h; cases h
      | ok n => rw [hcv] at h; cases h
    · rw [if_neg h5] at h
      by_cases h0 : voteCount row ≠ 0
      · rw [if_pos h0] at h; cases h
      · rw [if_neg h0] at h
        rcases List.mem_cons.1 hr with rfl | hr'
        · omega
        · exact ih (i + 1) h r hr'

theorem voteCount_zero_all_blank {row : List String} (h : voteCount row = 0) :
    ∀ t ∈ row, t = "" := by
  intro t ht
  by_contra hne
  have hmem : t ∈ row.filter (fun t => t ≠ "") :=
    List.mem_filter.2 ⟨ht, by simpa using hne⟩
  have hlen : 0 < (row.filter (fun t => t ≠ "")).length :=
    List.length_pos.2 (List.ne_nil_of_mem hmem)
  rw [voteCount] at h
  omega

theorem mem_keys_tallyStep {x : String} {c : List (String × ℕ)} {t : String} :
    x ∈ (tallyStep c t).map Prod.fst ↔ x = t ∨ x ∈ c.map Prod.fst := by
  unfold tallyStep
  rw [mem_dictKeys_insert]
  by_cases hm : dictMem t c = true
  · rw [if_pos hm]
  · simp only [hm, Bool.false_eq_true, if_false]
    rw [mem_dictKeys_insert]
    tauto

theorem mem_keys_tallyRow {x : String} (row : List String) :
    ∀ acc, x ∈ (row.foldl tallyStep acc).map Prod.fst →
      x ∈ row ∨ x ∈ acc.map Prod.fst := by
  induction row with
  | nil => exact fun acc h => Or.inr h
  | cons t rest ih =>
    intro acc h
    rw [List.foldl_cons] at h
    rcases ih (tallyStep acc t) h with h1 | h2
    · exact Or.inl (List.mem_cons_of_mem _ h1)
    · rcases mem_keys_tallyStep.1 h2 with rfl | h3
      · exact Or.inl (List.mem_cons_self _ _)
      · exact Or.inr h3

theorem mem_keys_tallyTitles {x : String} (rows : List (List String)) :
    ∀ acc : List (String × ℕ),
      x ∈ (rows.foldl (fun c row => row.foldl tallyStep c) acc).map Prod.fst →
      (∃ row ∈ rows, x ∈ row) ∨ x ∈ acc.map Prod.fst := by
  induction rows with
  | nil => exact fun acc h => Or.inr h
  | cons row rest ih =>
    intro acc h
    rw [List.foldl_cons] at h
    rcases ih (row.foldl tallyStep acc) h with ⟨r, hr, hx⟩ | h2
    · exact Or.inl ⟨r, List.mem_cons_of_mem _ hr, hx⟩
    · rcases mem_keys_tallyRow row acc h2 with h3 | h4
      · exact Or.inl ⟨row, List.mem_cons_self _ _, h3⟩
      · exact Or.inr h4

theorem delBlank_tally_of_blank (rows : List (List String))
    (hblank : ∀ row ∈ rows, ∀ t ∈ row, t = "") :
    delBlank (tallyTitles rows) = [] := by
  rw [delBlank, List.filter_eq_nil_iff]
  intro p hp
  have hk : p.1 ∈ (tallyTitles rows).map Prod.fst := List.mem_map_of_mem _ hp
  rcases mem_keys_tallyTitles rows [] hk with ⟨row, hrow, hmem⟩ | habs
  · have := hblank row hrow p.1 hmem
    simp [this]
  · cases habs

theorem countVoters_error_prefix (rows : List (List String)) :
    ∀ i e, countVoters rows i = .error e → ∃ s, e = "Only " ++ s := by
  induction rows with
  | nil => intro i e h; cases h
  | cons row rest ih =>
    intro i e h
    rw [countVoters] at h
    by_cases h5 : 5 ≤ voteCount row
    · rw [if_pos h5] at h
      cases hcv : countVoters rest (i + 1) with
      | error e2 =>
        rw [hcv] at h
        obtain rfl : e2 = e := by injection h
        exact ih (i + 1) _ hcv
      | ok n => rw [hcv] at h; cases h
    · rw [if_neg h5] at h
      by_cases h0 : voteCount row ≠ 0
      · rw [if_pos h0] at h
        refine ⟨toString (voteCount row) ++ (" votes included in ballot line ~"
          ++ (toString (i + 2) ++ " when at least 5 are required")), ?_⟩
        injection h with h2
        rw [← h2]
        simp [String.append_assoc]
      · rw [if_neg h0] at h
        exact ih (i + 1) e h

theorem buildRecords_error_prefix (tps : List (String × ℚ))
    (tcs : List (String × ℕ)) (t2up : List (String × Option String))
    (t2url : List (String × String)) (tb : List (String × Bool)) :
    ∀ ts e, buildRecords tps tcs t2up t2url tb ts = .error e →
      ∃ s, e = "KeyError: " ++ s := by
  intro ts
  induction ts with
  | nil => intro e h; cases h
  | cons title rest ih =>
    intro e h
    rw [buildRecords] at h
    cases h1 : pyDictGet title t2up with
    | error e1 =>
      rw [h1] at h
      obtain rfl : e1 = e := by injection h
      rw [pyDictGet] at h1
      cases h1' : dictGet? title t2up with
      | some v => rw [h1'] at h1; cases h1
      | none =>
        rw [h1'] at h1
        injection h1 with h2
        exact ⟨title, h2.symm⟩
    | ok uploader =>
      rw [h1] at h
      cases h2 : pyDictGet title tps with
      | error e2 =>
        rw [h2] at h
        obtain rfl : e2 = e := by injection h
        rw [pyDictGet] at h2
        cases h2' : dictGet? title tps with
        | some v => rw [h2'] at h2; cases h2
        | none =>
          rw [h2'] at h2
          injection h2 with h3
          exact ⟨title, h3.symm⟩
      | ok percentage =>
        rw [h2] at h
        cases h3 : pyDictGet title tcs with
        | error e3 =>
          rw [h3] at h
          obtain rfl : e3 = e := by injection h
          rw [pyDictGet] at h3
          cases h3' : dictGet? title tcs with
          | some v => rw [h3'] at h3; cases h3
          | none =>
            rw [h3'] at h3
            injection h3 with h4
            exact ⟨title, h4.symm⟩
        | ok count =>
          rw [h3] at h
          cases h4 : pyDictGet title t2url with
          | error e4 =>
            rw [h4] at h
            obtain rfl : e4 = e := by injection h
            rw [pyDictGet] at h4
            cases h4' : dictGet? title t2url with
            | some v => rw [h4'] at h4; cases h4
            | none =>
              rw [h4'] at h4
              injection h4 with h5
              exact ⟨title, h5.symm⟩
          | ok url =>
            rw [h4] at h
            cases h5 : pyDictGet title tb with
            | error e5 =>
              rw [h5] at h
              obtain rfl : e5 = e := by injection h
              rw [pyDictGet] at h5
              cases h5' : dictGet? title tb with
              | some v => rw [h5'] at h5; cases h5
              | none =>
                rw [h5'] at h5
                injection h5 with h6
                exact ⟨title, h6.symm⟩
            | ok flag =>
              rw [h5] at h
              cases h6 : buildRecords tps tcs t2up t2url tb rest with
              | error e6 =>
                rw [h6] at h
                obtain rfl : e6 = e := by injection h
                exact ih _ h6
              | ok recs => rw [h6] at h; cases h

theorem only_ne_zde (s : String) :
    "Only " ++ s ≠ "ZeroDivisionError: division by zero" := by
  intro h
  have h3 : ("Only " ++ s).data.head? = some 'O' := rfl
  rw [h] at h3
  exact absurd h3 (by decide)

theorem keyerror_ne_zde (s : String) :
    "KeyError: " ++ s ≠ "ZeroDivisionError: division by zero" := by
  intro h
  have h3 : ("KeyError: " ++ s).data.head? = some 'K' := rfl
  rw [h] at h3
  exact absurd h3 (by decide)

/-- **C10.** The percentage division of `calc_ranked_records` can never
divide by zero: the `ZeroDivisionError` state is unreachable, because
whenever validation passes with zero counted ballots, every ballot is
fully blank, the blank-free tally is empty and no percentage is ever
computed (the result is then the empty record list). -/
theorem calc_ranked_records_no_div_zero (pick : List String → ℕ)
    (title_rows : List (List String)) (t2url : List (String × String))
    (t2up : List (String × Option String)) :
    calc_ranked_records pick title_rows t2url t2up
        ≠ .error "ZeroDivisionError: division by zero"
    ∧ (countVoters title_rows 0 = .ok 0 →
        delBlank (tallyTitles title_rows) = []
        ∧ calc_ranked_records pick title_rows t2url t2up = .ok []) := by
  constructor
  · intro hcontra
    cases hcv : countVoters title_rows 0 with
    | error e =>
      simp only [calc_ranked_records, hcv] at hcontra
      obtain ⟨s, rfl⟩ := countVoters_error_prefix title_rows 0 e hcv
      have heq : "Only " ++ s = "ZeroDivisionError: division by zero" := by
        injection hcontra
      exact only_ne_zde s heq
    | ok n =>
      simp only [calc_ranked_records, hcv] at hcontra
      by_cases hguard : n = 0 ∧ delBlank (tallyTitles title_rows) ≠ []
      · obtain ⟨hn0, hne⟩ := hguard
        subst hn0
        have hblank := countVoters_ok_zero title_rows 0 hcv
        exact hne (delBlank_tally_of_blank title_rows
          (fun row hr => voteCount_zero_all_blank (hblank row hr)))
      · rw [if_neg hguard] at hcontra
        obtain ⟨s, hs⟩ := buildRecords_error_prefix _ _ _ _ _ _ _ hcontra
        exact keyerror_ne_zde s hs.symm
  · intro hcv
    have hblank := countVoters_ok_zero title_rows 0 hcv
    have hdel := delBlank_tally_of_blank title_rows
      (fun row hr => voteCount_zero_all_blank (hblank row hr))
    refine ⟨hdel, ?_⟩
    simp only [calc_ranked_records, hcv, hdel]
    rw [if_neg (by simp)]
    rw [show titlePercentages [] 0 = [] from rfl,
      show percentageGroups ([] : List (String × ℚ)) = [] from rfl, rankGroups,
      show (([] : List (ℚ × List String)).map Prod.fst) = [] from rfl,
      show sortedDescending [] = [] from rfl]
    rfl

/-- Witness for C10: one fully blank ballot — validation passes with zero
counted voters, the tally is empty and the result is the empty list. -/
theorem calc_ranked_records_no_div_zero_witness :
    calc_ranked_records (fun _ => 0) [["", ""]] [] []
        ≠ .error "ZeroDivisionError: division by zero"
    ∧ delBlank (tallyTitles [["", ""]]) = []
    ∧ calc_ranked_records (fun _ => 0) [["", ""]] [] [] = .ok [] := by
  have h := calc_ranked_records_no_div_zero (fun _ => 0) [["", ""]] [] []
  obtain ⟨hdel, hok⟩ := h.2 rfl
  exact ⟨h.1, hdel, hok⟩

/-! Commutation of the blank-title deletion with the tally steps. -/

theorem dictGet?_delBlank {t : String} (ht : t ≠ "") (c : List (String × ℕ)) :
    dictGet? t (delBlank c) = dictGet? t c := by
  induction c with
  | nil => rfl
  | cons p rest ih =>
    by_cases hp : p.1 = t
    · rw [delBlank, List.filter_cons, if_pos (by simpa using hp ▸ ht)]
      unfold dictGet?
      rw [List.find?_cons_of_pos _ (by simpa using hp),
        List.find?_cons_of_pos _ (by simpa using hp)]
    · by_cases hpb : p.1 = ""
      · rw [delBlank, List.filter_cons, if_neg (by simpa using hpb)]
        rw [delBlank] at ih
        rw [ih]
        unfold dictGet?
        rw [List.find?_cons_of_neg _ (by simpa using hp)]
      · rw [delBlank, List.filter_cons, if_pos (by simpa using hpb)]
        unfold dictGet?
        rw [List.find?_cons_of_neg _ (by simpa using hp),
          List.find?_cons_of_neg _ (by simpa using hp)]
        rw [delBlank] at ih
        exact ih

theorem dictMem_delBlank {t : String} (ht : t ≠ "") (c : List (String × ℕ)) :
    dictMem t (delBlank c) = dictMem t c := by
  rw [dictMem_eq_isSome, dictMem_eq_isSome, dictGet?_delBlank ht]

theorem delBlank_dictInsert_ne {t : String} (ht : t ≠ "") (v : ℕ)
    (c : List (String × ℕ)) :
    delBlank (dictInsert t v c) = dictInsert t v (delBlank c) := by
  by_cases hmem : (c.map Prod.fst).contains t = true
  · have hmem2 : ((delBlank c).map Prod.fst).contains t = true := by
      have h1 : dictMem t (delBlank c) = dictMem t c := dictMem_delBlank ht c
      rw [dictMem, dictMem] at h1
      rw [h1]
      exact hmem
    rw [dictInsert, if_pos hmem, dictInsert, if_pos hmem2, delBlank, delBlank,
      List.map_filter]
    refine congrArg _ (List.filter_congr (fun p _ => ?_))
    by_cases hp : p.1 = t
    · simp only [Function.comp, hp, if_pos rfl]
      simp [ht, hp]
    · simp only [Function.comp, if_neg hp]
  · have hmem2 : ¬ ((delBlank c).map Prod.fst).contains t = true := by
      have h1 : dictMem t (delBlank c) = dictMem t c := dictMem_delBlank ht c
      rw [dictMem, dictMem] at h1
      rw [h1]
      exact hmem
    rw [dictInsert, if_neg hmem, dictInsert, if_neg hmem2, delBlank, delBlank,
      List.filter_append]
    simp [ht]

theorem delBlank_dictInsert_blank (v : ℕ) (c : List (String × ℕ)) :
    delBlank (dictInsert "" v c) = delBlank c := by
  by_cases hmem : (c.map Prod.fst).contains "" = true
  · rw [dictInsert, if_pos hmem, delBlank, delBlank, List.map_filter]
    have hcong : c.filter ((fun p => p.1 ≠ "") ∘
        (fun p => if p.1 = "" then ("", v) else p)) = c.filter (fun p => p.1 ≠ "") := by
      refine List.filter_congr (fun p _ => ?_)
      by_cases hp : p.1 = ""
      · simp [Function.comp, hp]
      · simp [Function.comp, hp]
    rw [hcong]
    refine (List.map_congr_left (fun p hp => ?_)).trans (List.map_id _)
    have := (List.mem_filter.1 hp).2
    simp only [ne_eq, decide_eq_true_eq] at this
    simp [this]
  · rw [dictInsert, if_neg hmem, delBlank, delBlank, List.filter_append]
    simp

theorem delBlank_tallyStep_blank (c : List (String × ℕ)) :
    delBlank (tallyStep c "") = delBlank c := by
  unfold tallyStep
  rw [delBlank_dictInsert_blank]
  by_cases hmem : dictMem "" c = true
  · rw [if_pos hmem]
  · simp only [hmem, Bool.false_eq_true, if_false]
    exact delBlank_dictInsert_blank 0 c

theorem delBlank_tallyStep_comm {t : String} (ht : t ≠ "")
    (c : List (String × ℕ)) :
    delBlank (tallyStep c t) = tallyStep (delBlank c) t := by
  unfold tallyStep
  rw [dictMem_delBlank ht]
  by_cases hmem : dictMem t c = true
  · rw [if_pos hmem, if_pos hmem, delBlank_dictInsert_ne ht,
      dictGet?_delBlank ht]
  · simp only [hmem, Bool.false_eq_true, if_false]
    rw [delBlank_dictInsert_ne ht, delBlank_dictInsert_ne ht,
      dictGet?_insert_self, dictGet?_insert_self]

theorem delBlank_tallyStep_congr {c1 c2 : List (String × ℕ)}
    (h : delBlank c1 = delBlank c2) (t : String) :
    delBlank (tallyStep c1 t) = delBlank (tallyStep c2 t) := by
  by_cases ht : t = ""
  · subst ht
    rw [delBlank_tallyStep_blank, delBlank_tallyStep_blank, h]
  · rw [delBlank_tallyStep_comm ht, delBlank_tallyStep_comm ht, h]

theorem delBlank_tallyRow_congr (row : List String) :
    ∀ {c1 c2 : List (String × ℕ)}, delBlank c1 = delBlank c2 →
      delBlank (row.foldl tallyStep c1) = delBlank (row.foldl tallyStep c2) := by
  induction row with
  | nil => exact fun h => h
  | cons t rest ih =>
    intro c1 c2 h
    rw [List.foldl_cons, List.foldl_cons]
    exact ih (delBlank_tallyStep_congr h t)

theorem delBlank_tallyRows_congr (rows : List (List String)) :
    ∀ {c1 c2 : List (String × ℕ)}, delBlank c1 = delBlank c2 →
      delBlank (rows.foldl (fun c row => row.foldl tallyStep c) c1)
        = delBlank (rows.foldl (fun c row => row.foldl tallyStep c) c2) := by
  induction rows with
  | nil => exact fun h => h
  | cons row rest ih =>
    intro c1 c2 h
    rw [List.foldl_cons, List.foldl_cons]
    exact ih (delBlank_tallyRow_congr row h)

theorem delBlank_tallyRow_blank {row : List String}
    (hblank : ∀ t ∈ row, t = "") (c : List (String × ℕ)) :
    delBlank (row.foldl tallyStep c) = delBlank c := by
  induction row generalizing c with
  | nil => rfl
  | cons t rest ih =>
    rw [List.foldl_cons]
    have ht : t = "" := hblank t (List.mem_cons_self _ _)
    subst ht
    rw [ih (fun t2 h2 => hblank t2 (List.mem_cons_of_mem _ h2)),
      delBlank_tallyStep_blank]

/-- A fully blank ballot leaves the blank-free tally unchanged. -/
theorem delBlank_tally_cons_blank {b : List String} (hb : voteCount b = 0)
    (rows : List (List String)) :
    delBlank (tallyTitles (b :: rows)) = delBlank (tallyTitles rows) := by
  rw [tallyTitles, tallyTitles, List.foldl_cons]
  exact delBlank_tallyRows_congr rows
    (delBlank_tallyRow_blank (voteCount_zero_all_blank hb) [])

/-- **C1.** Ballot validation in `calc_ranked_records`: a ballot with zero
non-blank slots is excluded from all further computation without error
(removing it changes nothing, given the other ballots validate); the
first ballot with between 1 and 4 non-blank slots raises the validation
error naming its approximate input position (`index + 2`, accounting for
the 1-based display and the header row); and the percentage denominator
counts exactly the ballots with 5 or more non-blank slots. -/
theorem calc_ranked_records_validation (pick : List String → ℕ)
    (t2url : List (String × String)) (t2up : List (String × Option String)) :
    (∀ (title_rows : List (List String)) (b : List String),
      voteCount b = 0 →
      (∀ r ∈ title_rows, voteCount r = 0 ∨ 5 ≤ voteCount r) →
      calc_ranked_records pick (b :: title_rows) t2url t2up
        = calc_ranked_records pick title_rows t2url t2up)
    ∧ (∀ (title_rows : List (List String)) (j : ℕ), j < title_rows.length →
        1 ≤ voteCount (title_rows.getD j []) →
        voteCount (title_rows.getD j []) ≤ 4 →
        (∀ l, l < j → voteCount (title_rows.getD l []) = 0
          ∨ 5 ≤ voteCount (title_rows.getD l [])) →
        calc_ranked_records pick title_rows t2url t2up
          = .error ("Only " ++ toString (voteCount (title_rows.getD j []))
            ++ " votes included in ballot line ~" ++ toString (j + 2)
            ++ " when at least 5 are required"))
    ∧ (∀ title_rows : List (List String),
        (∀ r ∈ title_rows, voteCount r = 0 ∨ 5 ≤ voteCount r) →
        countVoters title_rows 0
          = .ok ((title_rows.filter (fun r => 5 ≤ voteCount r)).length)) := by
  refine ⟨?_, ?_, ?_⟩
  · intro title_rows b hb hvalid
    have hvalid2 : ∀ r ∈ b :: title_rows, voteCount r = 0 ∨ 5 ≤ voteCount r := by
      intro r hr
      rcases List.mem_cons.1 hr with rfl | hr'
      · exact Or.inl hb
      · exact hvalid r hr'
    have hcv1 := countVoters_ok_valid (b :: title_rows) hvalid2 0
    have hcv2 := countVoters_ok_valid title_rows hvalid 0
    rw [List.filter_cons, if_neg (by simpa using by omega)] at hcv1
    have hdel := delBlank_tally_cons_blank hb title_rows
    simp only [calc_ranked_records, hcv1, hcv2, hdel]
  · intro title_rows j hj h1 h4 hfirst
    have hcv := countVoters_error_at title_rows j hj h1 h4 hfirst 0
    rw [Nat.zero_add] at hcv
    simp only [calc_ranked_records, hcv]
  · exact fun title_rows hvalid => countVoters_ok_valid title_rows hvalid 0

/-- Witness for C1: a blank ballot next to two full ballots is dropped;
a 3-vote ballot in the second input line raises the position-bearing
error; two 5-vote ballots give denominator 2. -/
theorem calc_ranked_records_validation_witness :
    calc_ranked_records (fun _ => 0)
        ([] :: [["a", "b", "c", "d", "e"], ["a", "b", "c", "d", "f"]])
        [("a", "u")] [("a", some "x")]
      = calc_ranked_records (fun _ => 0)
        [["a", "b", "c", "d", "e"], ["a", "b", "c", "d", "f"]]
        [("a", "u")] [("a", some "x")]
    ∧ calc_ranked_records (fun _ => 0) [["a", "b", "c", "d", "e"], ["x", "y", "z"]]
        [] []
      = .error "Only 3 votes included in ballot line ~3 when at least 5 are required"
    ∧ countVoters [["a", "b", "c", "d", "e"], ["a", "b", "c", "d", "f"]] 0 = .ok 2 := by
  have h := calc_ranked_records_validation (fun _ => 0) [("a", "u")] [("a", some "x")]
  have h2 := calc_ranked_records_validation (fun _ => 0) [] []
  refine ⟨h.1 [["a", "b", "c", "d", "e"], ["a", "b", "c", "d", "f"]] []
      (by decide) (by decide), ?_, ?_⟩
  · have := h2.2.1 [["a", "b", "c", "d", "e"], ["x", "y", "z"]] 1
      (by decide) (by decide) (by decide)
      (by intro l hl; interval_cases l; exact Or.inr (by decide))
    exact this.trans (by rfl)
  · exact ((h.2.2) [["a", "b", "c", "d", "e"], ["a", "b", "c", "d", "f"]]
      (by decide)).trans (by rfl)

/-! ## C3 — tie-break grouping, ordering and flagging -/

theorem perm_getD_cons_eraseIdx (l : List String) (j : ℕ) (hj : j < l.length) :
    List.Perm (l.getD j "" :: l.eraseIdx j) l := by
  rw [List.eraseIdx_eq_take_drop_succ]
  have h1 : List.Perm (l.getD j "" :: (l.take j ++ l.drop (j + 1)))
      (l.take j ++ (l.getD j "" :: l.drop (j + 1))) := List.perm_middle.symm
  have h2 : l.getD j "" :: l.drop (j + 1) = l.drop j := by
    rw [List.getD_eq_getElem l "" hj]
    exact List.getElem_cons_drop l j hj
  rw [h2] at h1
  rw [List.take_append_drop] at h1
  exact h1

theorem shuffleBy_nil (pick : List String → ℕ) : shuffleBy pick [] = [] := rfl

theorem shuffleGo_perm (pick : List String → ℕ) :
    ∀ (fuel : ℕ) (l : List String), l.length ≤ fuel →
      List.Perm (shuffleGo pick fuel l) l := by
  intro fuel
  induction fuel with
  | zero =>
    intro l hl
    obtain rfl : l = [] := List.length_eq_zero.1 (Nat.le_zero.1 hl)
    exact List.Perm.refl _
  | succ n ih =>
    intro l hl
    by_cases h : l = []
    · subst h
      exact List.Perm.refl _
    · rw [shuffleGo, if_neg h]
      have hlen : 0 < l.length := List.length_pos.2 h
      have hj : pick l % l.length < l.length := Nat.mod_lt _ hlen
      have hsub : (l.eraseIdx (pick l % l.length)).length ≤ n := by
        rw [List.length_eraseIdx]
        simp only [hj, if_true]
        omega
      exact ((ih _ hsub).cons _).trans (perm_getD_cons_eraseIdx l _ hj)

theorem shuffleBy_perm (pick : List String → ℕ) (l : List String) :
    List.Perm (shuffleBy pick l) l :=
  shuffleGo_perm pick l.length l (le_refl _)

theorem foldl_insert_pairs (v : Bool) (l : List String)
    (b0 : List (String × Bool)) :
    l.foldl (fun tb t => dictInsert t v tb) b0
      = (l.map (fun t => (t, v))).foldl
          (fun tb p => dictInsert p.1 p.2 tb) b0 := by
  induction l generalizing b0 with
  | nil => rfl
  | cons t rest ih => simp [ih]

theorem rankGroups_foldl_spec (pick : List String → ℕ)
    (gr : List (ℚ × List String)) (ks : List ℚ) :
    ∀ (a0 : List String) (b0 : List (String × Bool)),
      ks.foldl (fun acc percentage =>
        (acc.1 ++ shuffleBy pick ((dictGet? percentage gr).getD []),
          (shuffleBy pick ((dictGet? percentage gr).getD [])).foldl
            (fun tb t => dictInsert t
              (decide (1 < ((dictGet? percentage gr).getD []).length)) tb)
            acc.2)) (a0, b0)
      = (a0 ++ ks.flatMap (fun q => shuffleBy pick ((dictGet? q gr).getD [])),
         (ks.flatMap (fun q => (shuffleBy pick ((dictGet? q gr).getD [])).map
            (fun t => (t, decide (1 < ((dictGet? q gr).getD []).length))))).foldl
           (fun tb p => dictInsert p.1 p.2 tb) b0) := by
  induction ks with
  | nil => intro a0 b0; simp
  | cons q rest ih =>
    intro a0 b0
    rw [List.foldl_cons, ih, List.flatMap_cons, List.flatMap_cons,
      List.foldl_append, ← List.append_assoc, foldl_insert_pairs]

theorem rankGroups_spec (pick : List String → ℕ) (gr : List (ℚ × List String)) :
    rankGroups pick gr
      = ((sortedDescending (gr.map Prod.fst)).flatMap
          (fun q => shuffleBy pick ((dictGet? q gr).getD [])),
        ((sortedDescending (gr.map Prod.fst)).flatMap
          (fun q => (shuffleBy pick ((dictGet? q gr).getD [])).map
            (fun t => (t, decide (1 < ((dictGet? q gr).getD []).length))))).foldl
          (fun tb p => dictInsert p.1 p.2 tb) []) := by
  rw [rankGroups, rankGroups_foldl_spec, List.nil_append]

theorem tallyStep_keys_nodup {c : List (String × ℕ)}
    (h : (c.map Prod.fst).Nodup) (t : String) :
    ((tallyStep c t).map Prod.fst).Nodup := by
  unfold tallyStep
  apply dictKeys_insert_nodup
  by_cases hm : dictMem t c = true
  · rw [if_pos hm]
    exact h
  · simp only [hm, Bool.false_eq_true, if_false]
    exact dictKeys_insert_nodup _ _ h

theorem tallyRow_keys_nodup (row : List String) :
    ∀ {c : List (String × ℕ)}, (c.map Prod.fst).Nodup →
      ((row.foldl tallyStep c).map Prod.fst).Nodup := by
  induction row with
  | nil => exact fun h => h
  | cons t rest ih => exact fun h => ih (tallyStep_keys_nodup h t)

theorem tallyTitles_keys_nodup (rows : List (List String)) :
    ((tallyTitles rows).map Prod.fst).Nodup := by
  rw [tallyTitles]
  suffices h : ∀ c : List (String × ℕ), (c.map Prod.fst).Nodup →
      ((rows.foldl (fun c row => row.foldl tallyStep c) c).map Prod.fst).Nodup by
    exact h [] List.nodup_nil
  induction rows with
  | nil => exact fun c h => h
  | cons row rest ih => exact fun c h => ih _ (tallyRow_keys_nodup row h)

theorem delBlank_keys_nodup {c : List (String × ℕ)}
    (h : (c.map Prod.fst).Nodup) : ((delBlank c).map Prod.fst).Nodup :=
  ((List.filter_sublist c).map Prod.fst).nodup h

theorem titlePercentages_keys (c : List (String × ℕ)) (n : ℕ) :
    (titlePercentages c n).map Prod.fst = c.map Prod.fst := by
  rw [titlePercentages, List.map_map]
  rfl

theorem groupStep_keys_nodup {κ γ δ : Type} [DecidableEq κ] (key : γ → κ)
    (val : γ → δ) {d : List (κ × List δ)} (h : (d.map Prod.fst).Nodup)
    (x : γ) : ((groupStep key val d x).map Prod.fst).Nodup := by
  unfold groupStep
  apply dictKeys_insert_nodup
  by_cases hm : dictMem (key x) d = true
  · rw [if_pos hm]
    exact h
  · simp only [hm, Bool.false_eq_true, if_false]
    exact dictKeys_insert_nodup _ _ h

theorem groupFold_keys_nodup {κ γ δ : Type} [DecidableEq κ] (key : γ → κ)
    (val : γ → δ) (xs : List γ) :
    ((groupFold key val xs).map Prod.fst).Nodup := by
  rw [groupFold]
  suffices h : ∀ d : List (κ × List δ), (d.map Prod.fst).Nodup →
      ((xs.foldl (groupStep key val) d).map Prod.fst).Nodup by
    exact h [] List.nodup_nil
  induction xs with
  | nil => exact fun d h => h
  | cons x rest ih => exact fun d h => ih _ (groupStep_keys_nodup key val h x)

/-- The group of titles sharing the exact percentage `q` (the semantic
content of a `percentage_groups` entry). -/
def sgroup (tp : List (String × ℚ)) (q : ℚ) : List String :=
  (tp.filter (fun p => p.2 = q)).map Prod.fst

theorem dictGet?_percentageGroups (tp : List (String × ℚ)) (q : ℚ) :
    dictGet? q (percentageGroups tp)
      = if sgroup tp q = [] then none else some (sgroup tp q) := by
  rw [percentageGroups, dictGet?_groupFold]
  by_cases h : tp.filter (fun p => p.2 = q) = []
  · rw [if_pos (by simp [h]), if_pos (by rw [sgroup, h]; rfl)]
  · rw [if_neg (by simpa [List.isEmpty_iff] using h),
      if_neg (by simp [sgroup, h])]
    rfl

theorem mem_sgroup {tp : List (String × ℚ)} {t : String} {q : ℚ} :
    t ∈ sgroup tp q ↔ (t, q) ∈ tp := by
  rw [sgroup]
  constructor
  · intro h
    obtain ⟨⟨t1, q1⟩, hp, heq⟩ := List.mem_map.1 h
    obtain ⟨hp1, hp2⟩ := List.mem_filter.1 hp
    simp only at heq
    simp only [decide_eq_true_eq] at hp2
    subst heq
    subst hp2
    exact hp1
  · intro h
    exact List.mem_map.2 ⟨(t, q), List.mem_filter.2 ⟨h, by simp⟩, rfl⟩

theorem sgroup_lookup {tp : List (String × ℚ)}
    (hnd : (tp.map Prod.fst).Nodup) {q : ℚ} {t : String}
    (ht : t ∈ sgroup tp q) : dictGet? t tp = some q :=
  dictGet?_of_mem_nodup hnd (mem_sgroup.1 ht)

theorem sgroup_nodup {tp : List (String × ℚ)}
    (hnd : (tp.map Prod.fst).Nodup) (q : ℚ) : (sgroup tp q).Nodup :=
  ((List.filter_sublist tp).map Prod.fst).nodup hnd

theorem sgroup_disjoint {tp : List (String × ℚ)}
    (hnd : (tp.map Prod.fst).Nodup) {q1 q2 : ℚ} (hne : q1 ≠ q2) :
    List.Disjoint (sgroup tp q1) (sgroup tp q2) := by
  intro t h1 h2
  have e1 := sgroup_lookup hnd h1
  have e2 := sgroup_lookup hnd h2
  rw [e1] at e2
  exact hne (Option.some_injective _ e2)

theorem sgroupD_of_mem_keys {tp : List (String × ℚ)} {q : ℚ}
    (h : q ∈ (percentageGroups tp).map Prod.fst) :
    (dictGet? q (percentageGroups tp)).getD [] = sgroup tp q
      ∧ sgroup tp q ≠ [] := by
  have hnone := @dictGet?_eq_none_iff ℚ (List String) _ q (percentageGroups tp)
  rw [dictGet?_percentageGroups] at hnone ⊢
  by_cases hs : sgroup tp q = []
  · rw [if_pos hs] at hnone
    exact absurd h (hnone.1 rfl)
  · rw [if_neg hs]
    exact ⟨rfl, hs⟩

theorem ranked_nodup (pick : List String → ℕ) {tp : List (String × ℚ)}
    (hnd : (tp.map Prod.fst).Nodup) {ks : List ℚ} (hknd : ks.Nodup)
    (hgrp : ∀ q ∈ ks,
      (dictGet? q (percentageGroups tp)).getD [] = sgroup tp q) :
    (ks.flatMap (fun q =>
      shuffleBy pick ((dictGet? q (percentageGroups tp)).getD []))).Nodup := by
  rw [show ks.flatMap (fun q =>
      shuffleBy pick ((dictGet? q (percentageGroups tp)).getD []))
    = (ks.map (fun q =>
      shuffleBy pick ((dictGet? q (percentageGroups tp)).getD []))).flatten
    from rfl]
  rw [List.nodup_flatten]
  constructor
  · intro l hl
    obtain ⟨q, hq, rfl⟩ := List.mem_map.1 hl
    rw [hgrp q hq]
    exact ((shuffleBy_perm pick _).nodup_iff).2 (sgroup_nodup hnd q)
  · rw [List.pairwise_map]
    refine hknd.imp_of_mem ?_
    intro q1 q2 hq1 hq2 hne t h1 h2
    rw [hgrp q1 hq1] at h1
    rw [hgrp q2 hq2] at h2
    have h1s : t ∈ sgroup tp q1 := ((shuffleBy_perm pick _).mem_iff).1 h1
    have h2s : t ∈ sgroup tp q2 := ((shuffleBy_perm pick _).mem_iff).1 h2
    exact sgroup_disjoint hnd hne h1s h2s

theorem ranked_pairwise (pick : List String → ℕ) {tp : List (String × ℚ)}
    (hnd : (tp.map Prod.fst).Nodup) {ks : List ℚ}
    (hsorted : ks.Pairwise (fun a b => b ≤ a))
    (hgrp : ∀ q ∈ ks,
      (dictGet? q (percentageGroups tp)).getD [] = sgroup tp q) :
    ((ks.flatMap (fun q =>
        shuffleBy pick ((dictGet? q (percentageGroups tp)).getD []))).map
      (fun t => (dictGet? t tp).getD 0)).Pairwise (fun a b => b ≤ a) := by
  rw [List.pairwise_map]
  rw [show ks.flatMap (fun q =>
      shuffleBy pick ((dictGet? q (percentageGroups tp)).getD []))
    = (ks.map (fun q =>
      shuffleBy pick ((dictGet? q (percentageGroups tp)).getD []))).flatten
    from rfl]
  rw [List.pairwise_flatten]
  refine ⟨?_, ?_⟩
  · intro l hl
    obtain ⟨q, hq, rfl⟩ := List.mem_map.1 hl
    refine List.pairwise_of_forall_mem_list ?_
    intro a ha b hb
    rw [hgrp q hq] at ha hb
    have has := sgroup_lookup hnd (((shuffleBy_perm pick _).mem_iff).1 ha)
    have hbs := sgroup_lookup hnd (((shuffleBy_perm pick _).mem_iff).1 hb)
    rw [has, hbs]
  · rw [List.pairwise_map]
    refine hsorted.imp_of_mem ?_
    intro q1 q2 hq1 hq2 hle a ha b hb
    rw [hgrp q1 hq1] at ha
    rw [hgrp q2 hq2] at hb
    have has := sgroup_lookup hnd (((shuffleBy_perm pick _).mem_iff).1 ha)
    have hbs := sgroup_lookup hnd (((shuffleBy_perm pick _).mem_iff).1 hb)
    rw [has, hbs]
    exact hle

theorem length_filter_flatMap {α β : Type} (p : β → Bool) (ks : List α)
    (f : α → List β) :
    ((ks.flatMap f).filter p).length
      = (ks.map (fun q => ((f q).filter p).length)).sum := by
  induction ks with
  | nil => rfl
  | cons q rest ih =>
    rw [List.flatMap_cons, List.filter_append, List.length_append, ih,
      List.map_cons, List.sum_cons]

theorem sum_map_single {ks : List ℚ} (hnd : ks.Nodup) {q : ℚ} (hq : q ∈ ks)
    (g : ℚ → ℕ) (hz : ∀ q2 ∈ ks, q2 ≠ q → g q2 = 0) :
    (ks.map g).sum = g q := by
  induction ks with
  | nil => cases hq
  | cons a rest ih =>
    rw [List.nodup_cons] at hnd
    rw [List.map_cons, List.sum_cons]
    rcases List.mem_cons.1 hq with rfl | hmem
    · have hrest : (rest.map g).sum = 0 := by
        refine List.sum_eq_zero ?_
        intro x hx
        obtain ⟨q2, hq2, rfl⟩ := List.mem_map.1 hx
        exact hz q2 (List.mem_cons_of_mem _ hq2)
          (fun he => hnd.1 (he ▸ hq2))
      omega
    · have ha : g a = 0 :=
        hz a (List.mem_cons_self _ _) (fun he => hnd.1 (he ▸ hmem))
      rw [ha, ih hnd.2 hmem
        (fun q2 h2 hne => hz q2 (List.mem_cons_of_mem _ h2) hne)]
      omega

theorem ranked_count (pick : List String → ℕ) {tp : List (String × ℚ)}
    (hnd : (tp.map Prod.fst).Nodup) {ks : List ℚ} (hknd : ks.Nodup)
    (hgrp : ∀ q ∈ ks,
      (dictGet? q (percentageGroups tp)).getD [] = sgroup tp q)
    {q : ℚ} (hq : q ∈ ks) :
    ((ks.flatMap (fun q2 =>
        shuffleBy pick ((dictGet? q2 (percentageGroups tp)).getD []))).filter
      (fun t => dictGet? t tp = some q)).length
      = (sgroup tp q).length := by
  rw [length_filter_flatMap]
  have hg : ∀ q2 ∈ ks,
      ((shuffleBy pick ((dictGet? q2 (percentageGroups tp)).getD [])).filter
        (fun t => dictGet? t tp = some q)).length
      = if q2 = q then (sgroup tp q).length else 0 := by
    intro q2 hq2
    rw [hgrp q2 hq2]
    by_cases he : q2 = q
    · subst he
      rw [if_pos rfl]
      have hfull : (shuffleBy pick (sgroup tp q2)).filter
          (fun t => dictGet? t tp = some q2) = shuffleBy pick (sgroup tp q2) :=
        List.filter_eq_self.2 (fun t ht => by
          rw [sgroup_lookup hnd (((shuffleBy_perm pick _).mem_iff).1 ht)]
          simp)
      rw [hfull]
      exact (shuffleBy_perm pick _).length_eq
    · rw [if_neg he]
      have hnil : (shuffleBy pick (sgroup tp q2)).filter
          (fun t => dictGet? t tp = some q) = [] :=
        List.filter_eq_nil_iff.2 (fun t ht => by
          rw [sgroup_lookup hnd (((shuffleBy_perm pick _).mem_iff).1 ht)]
          simp [he])
      rw [hnil]
      rfl
  rw [List.map_congr_left hg,
    sum_map_single hknd hq _ (fun q2 _ hne => if_neg hne), if_pos rfl]

theorem tb_lookup (pick : List String → ℕ) {tp : List (String × ℚ)}
    (hnd : (tp.map Prod.fst).Nodup) {ks : List ℚ} (hknd : ks.Nodup)
    (hgrp : ∀ q ∈ ks,
      (dictGet? q (percentageGroups tp)).getD [] = sgroup tp q)
    {q : ℚ} (hq : q ∈ ks) {t : String}
    (ht : t ∈ shuffleBy pick ((dictGet? q (percentageGroups tp)).getD [])) :
    dictGet? t ((ks.flatMap (fun q2 =>
        (shuffleBy pick ((dictGet? q2 (percentageGroups tp)).getD [])).map
          (fun t2 => (t2,
            decide (1 < ((dictGet? q2 (percentageGroups tp)).getD []).length))))).foldl
      (fun tb p => dictInsert p.1 p.2 tb) [])
      = some (decide (1 < (sgroup tp q).length)) := by
  have hkeys : ((ks.flatMap (fun q2 =>
      (shuffleBy pick ((dictGet? q2 (percentageGroups tp)).getD [])).map
        (fun t2 => (t2,
          decide (1 < ((dictGet? q2 (percentageGroups tp)).getD []).length))))).map
        Prod.fst)
      = ks.flatMap (fun q2 =>
          shuffleBy pick ((dictGet? q2 (percentageGroups tp)).getD [])) := by
    rw [List.map_flatMap]
    refine congrArg (List.flatMap ks) (funext fun a => ?_)
    rw [List.map_map]
    rw [show (Prod.fst ∘ fun t2 : String =>
        (t2, decide (1 < ((dictGet? a (percentageGroups tp)).getD []).length)))
      = id from rfl]
    exact List.map_id _
  have hval : decide (1 < (sgroup tp q).length)
      = decide (1 < ((dictGet? q (percentageGroups tp)).getD []).length) := by
    rw [hgrp q hq]
  rw [hval]
  apply dictGet?_foldl_insert_mem
  · rw [hkeys]
    exact ranked_nodup pick hnd hknd hgrp
  · exact List.mem_flatMap.2 ⟨q, hq, List.mem_map.2 ⟨t, ht, rfl⟩⟩

theorem buildRecords_ok_spec (tps : List (String × ℚ)) (tcs : List (String × ℕ))
    (t2up : List (String × Option String)) (t2url : List (String × String))
    (tb : List (String × Bool)) :
    ∀ ts out, buildRecords tps tcs t2up t2url tb ts = .ok out →
      out.map RankedRecord.title = ts
      ∧ ∀ r ∈ out, ∃ flag, dictGet? r.title tb = some flag
          ∧ r.notes = (if flag then "Tie broken randomly by computer" else "") := by
  intro ts
  induction ts with
  | nil =>
    intro out h
    rw [buildRecords] at h
    obtain rfl : ([] : List RankedRecord) = out := by injection h
    exact ⟨rfl, fun r hr => absurd hr (List.not_mem_nil r)⟩
  | cons title rest ih =>
    intro out h
    rw [buildRecords] at h
    cases h1 : pyDictGet title t2up with
    | error e => rw [h1] at h; cases h
    | ok uploader =>
      rw [h1] at h
      cases h2 : pyDictGet title tps with
      | error e => rw [h2] at h; cases h
      | ok percentage =>
        rw [h2] at h
        cases h3 : pyDictGet title tcs with
        | error e => rw [h3] at h; cases h
        | ok count =>
          rw [h3] at h
          cases h4 : pyDictGet title t2url with
          | error e => rw [h4] at h; cases h
          | ok url =>
            rw [h4] at h
            cases h5 : pyDictGet title tb with
            | error e => rw [h5] at h; cases h
            | ok flag =>
              rw [h5] at h
              cases h6 : buildRecords tps tcs t2up t2url tb rest with
              | error e => rw [h6] at h; cases h
              | ok recs =>
                rw [h6] at h
                obtain rfl : (⟨title, uploader.getD "",
                    fmt4 percentage ++ "%", count, url,
                    if flag then "Tie broken randomly by computer" else ""⟩
                      : RankedRecord) :: recs = out := by
                  injection h
                obtain ⟨iht, ihn⟩ := ih recs h6
                refine ⟨by rw [List.map_cons, iht], ?_⟩
                intro r hr
                rcases List.mem_cons.1 hr with rfl | hr'
                · refine ⟨flag, ?_, rfl⟩
                  rw [pyDictGet] at h5
                  cases h5' : dictGet? title tb with
                  | none => rw [h5'] at h5; cases h5
                  | some v =>
                    rw [h5'] at h5
                    obtain rfl : v = flag := by injection h5
                    rfl
                · exact ihn r hr'

theorem rankGroups_fst (pick : List String → ℕ)
    (gr : List (ℚ × List String)) :
    (rankGroups pick gr).1
      = (sortedDescending (gr.map Prod.fst)).flatMap
          (fun q => shuffleBy pick ((dictGet? q gr).getD [])) := by
  rw [rankGroups_spec]

theorem rankGroups_snd (pick : List String → ℕ)
    (gr : List (ℚ × List String)) :
    (rankGroups pick gr).2
      = ((sortedDescending (gr.map Prod.fst)).flatMap
          (fun q => (shuffleBy pick ((dictGet? q gr).getD [])).map
            (fun t => (t, decide (1 < ((dictGet? q gr).getD []).length))))).foldl
          (fun tb p => dictInsert p.1 p.2 tb) [] := by
  rw [rankGroups_spec]

/-- The full tie-break pipeline (grouping, descending walk, shuffling,
flagging, record construction) on an arbitrary percentage dict with
distinct titles. -/
theorem rank_pipeline_spec (pick : List String → ℕ) (tp : List (String × ℚ))
    (hnd : (tp.map Prod.fst).Nodup) (tcs : List (String × ℕ))
    (t2up : List (String × Option String)) (t2url : List (String × String))
    (out : List RankedRecord)
    (hok : buildRecords tp tcs t2up t2url
        (rankGroups pick (percentageGroups tp)).2
        (rankGroups pick (percentageGroups tp)).1 = .ok out) :
    (out.map (fun r => (dictGet? r.title tp).getD 0)).Pairwise
      (fun a b => b ≤ a)
    ∧ ∀ r ∈ out, (dictGet? r.title tp).isSome = true
      ∧ (r.notes = "Tie broken randomly by computer" ↔
          2 ≤ (out.filter (fun x =>
            dictGet? x.title tp = dictGet? r.title tp)).length)
      ∧ (r.notes = "" ↔ (out.filter (fun x =>
            dictGet? x.title tp = dictGet? r.title tp)).length = 1) := by
  rw [rankGroups_fst, rankGroups_snd] at hok
  obtain ⟨htitles, hnotes⟩ := buildRecords_ok_spec tp tcs t2up t2url _ _ out hok
  have hknd : (sortedDescending ((percentageGroups tp).map Prod.fst)).Nodup :=
    ((sortedDescending_perm _).nodup_iff).2
      (groupFold_keys_nodup Prod.snd Prod.fst tp)
  have hsorted := sortedDescending_pairwise ((percentageGroups tp).map Prod.fst)
  have hgrp : ∀ q ∈ sortedDescending ((percentageGroups tp).map Prod.fst),
      (dictGet? q (percentageGroups tp)).getD [] = sgroup tp q :=
    fun q hq =>
      (sgroupD_of_mem_keys (((sortedDescending_perm _).mem_iff).1 hq)).1
  constructor
  · have hmm : out.map (fun r => (dictGet? r.title tp).getD 0)
        = ((sortedDescending ((percentageGroups tp).map Prod.fst)).flatMap
            (fun q => shuffleBy pick
              ((dictGet? q (percentageGroups tp)).getD []))).map
          (fun t => (dictGet? t tp).getD 0) := by
      rw [← htitles, List.map_map]
      rfl
    rw [hmm]
    exact ranked_pairwise pick hnd hsorted hgrp
  · intro r hr
    have hrt : r.title ∈ (sortedDescending
        ((percentageGroups tp).map Prod.fst)).flatMap
        (fun q => shuffleBy pick ((dictGet? q (percentageGroups tp)).getD [])) := by
      rw [← htitles]
      exact List.mem_map_of_mem _ hr
    obtain ⟨q, hqks, htsh⟩ := List.mem_flatMap.1 hrt
    have htsg : r.title ∈ sgroup tp q := by
      have h2 := htsh
      rw [hgrp q hqks] at h2
      exact ((shuffleBy_perm pick _).mem_iff).1 h2
    have hlook : dictGet? r.title tp = some q := sgroup_lookup hnd htsg
    have hL1 : 1 ≤ (sgroup tp q).length :=
      List.length_pos.2 (List.ne_nil_of_mem htsg)
    have hcount : (out.filter (fun x =>
        dictGet? x.title tp = dictGet? r.title tp)).length
        = (sgroup tp q).length := by
      rw [← List.countP_eq_length_filter]
      have hc2 : out.countP (fun x =>
          decide (dictGet? x.title tp = dictGet? r.title tp))
          = (out.map RankedRecord.title).countP
            (fun t => decide (dictGet? t tp = dictGet? r.title tp)) := by
        rw [List.countP_map]
        rfl
      rw [hc2, htitles, hlook, List.countP_eq_length_filter]
      exact ranked_count pick hnd hknd hgrp hqks
    obtain ⟨flag, hflag, hrnotes⟩ := hnotes r hr
    have hflag2 := tb_lookup pick hnd hknd hgrp hqks htsh
    rw [hflag] at hflag2
    obtain rfl : flag = decide (1 < (sgroup tp q).length) := by
      injection hflag2
    refine ⟨by rw [hlook]; rfl, ?_, ?_⟩
    · rw [hrnotes, hcount]
      by_cases h2 : 1 < (sgroup tp q).length
      · rw [decide_eq_true h2, if_pos rfl]
        exact ⟨fun _ => by omega, fun _ => rfl⟩
      · rw [decide_eq_false h2, if_neg (by simp)]
        exact ⟨fun hmsg => absurd hmsg.symm (by decide), fun hle => by omega⟩
    · rw [hrnotes, hcount]
      by_cases h2 : 1 < (sgroup tp q).length
      · rw [decide_eq_true h2, if_pos rfl]
        exact ⟨fun hmsg => absurd hmsg (by decide), fun h1 => by omega⟩
      · rw [decide_eq_false h2, if_neg (by simp)]
        exact ⟨fun _ => by omega, fun _ => rfl⟩

/-! ### C3: grouping, descending order and tie-break flags -/

/-- The percentage `calc_ranked_records` assigns to title `t` when
`counted_voters = n` (the value of its `percentages` dict at `t`). -/
def calcPercentage (title_rows : List (List String)) (n : ℕ) (t : String) :
    Option ℚ :=
  dictGet? t (titlePercentages (delBlank (tallyTitles title_rows)) n)

/-- C3: in the ranked output of `calc_ranked_records` (for any outcome
`pick` of the random sampling), records appear in descending order of
their percentage, so equal-percentage titles are contiguous; every
record's title carries a percentage; a record is flagged
`"Tie broken randomly by computer"` exactly when at least two output
records share its percentage, and carries the empty note exactly when
its percentage is unique in the output. -/
theorem calc_ranked_records_tie_break (pick : List String → ℕ)
    (title_rows : List (List String)) (titles_to_urls : List (String × String))
    (titles_to_uploaders : List (String × Option String)) (n : ℕ)
    (out : List RankedRecord)
    (hcv : countVoters title_rows 0 = .ok n)
    (hok : calc_ranked_records pick title_rows titles_to_urls
        titles_to_uploaders = .ok out) :
    (out.map (fun r => (calcPercentage title_rows n r.title).getD 0)).Pairwise
      (fun a b => b ≤ a)
    ∧ ∀ r ∈ out, (calcPercentage title_rows n r.title).isSome = true
      ∧ (r.notes = "Tie broken randomly by computer" ↔
          2 ≤ (out.filter (fun x => calcPercentage title_rows n x.title
            = calcPercentage title_rows n r.title)).length)
      ∧ (r.notes = "" ↔ (out.filter (fun x => calcPercentage title_rows n x.title
            = calcPercentage title_rows n r.title)).length = 1) := by
  simp only [calc_ranked_records, hcv] at hok
  by_cases hguard : n = 0 ∧ delBlank (tallyTitles title_rows) ≠ []
  · rw [if_pos hguard] at hok
    cases hok
  · rw [if_neg hguard] at hok
    have hnd : ((titlePercentages (delBlank (tallyTitles title_rows)) n).map
        Prod.fst).Nodup := by
      rw [titlePercentages_keys]
      exact delBlank_keys_nodup (tallyTitles_keys_nodup title_rows)
    simpa only [calcPercentage] using
      rank_pipeline_spec pick _ hnd _ titles_to_uploaders titles_to_urls out hok

def c3Rows : List (List String) :=
  [["a", "b", "c", "d", "e"], ["a", "b", "c", "d", "f"], ["a", "b", "c", "d", "e"]]

def c3Urls : List (String × String) :=
  [("a", "url-a"), ("b", "url-b"), ("c", "url-c"),
   ("d", "url-d"), ("e", "url-e"), ("f", "url-f")]

def c3Ups : List (String × Option String) :=
  [("a", some "A"), ("b", some "B"), ("c", none),
   ("d", some "D"), ("e", some "E"), ("f", some "F")]

def c3Out : List RankedRecord :=
  [⟨"a", "A", "100.0000%", 3, "url-a", "Tie broken randomly by computer"⟩,
   ⟨"b", "B", "100.0000%", 3, "url-b", "Tie broken randomly by computer"⟩,
   ⟨"c", "", "100.0000%", 3, "url-c", "Tie broken randomly by computer"⟩,
   ⟨"d", "D", "100.0000%", 3, "url-d", "Tie broken randomly by computer"⟩,
   ⟨"e", "E", "66.6667%", 2, "url-e", ""⟩,
   ⟨"f", "F", "33.3333%", 1, "url-f", ""⟩]

theorem calc_ranked_records_tie_break_witness :
    countVoters c3Rows 0 = .ok 3
    ∧ calc_ranked_records (fun _ => 0) c3Rows c3Urls c3Ups = .ok c3Out
    ∧ ((c3Out.map (fun r => (calcPercentage c3Rows 3 r.title).getD 0)).Pairwise
        (fun a b => b ≤ a)
      ∧ ∀ r ∈ c3Out, (calcPercentage c3Rows 3 r.title).isSome = true
        ∧ (r.notes = "Tie broken randomly by computer" ↔
            2 ≤ (c3Out.filter (fun x => calcPercentage c3Rows 3 x.title
              = calcPercentage c3Rows 3 r.title)).length)
        ∧ (r.notes = "" ↔ (c3Out.filter (fun x => calcPercentage c3Rows 3 x.title
              = calcPercentage c3Rows 3 r.title)).length = 1)) :=
  ⟨rfl, by with_unfolding_all rfl,
    calc_ranked_records_tie_break (fun _ => 0) c3Rows c3Urls c3Ups 3 c3Out rfl
      (by with_unfolding_all rfl)⟩
